import Mathlib

/-!
Nebula: uniform grid tables, the material barrier test and the ionisation table.

A shallow embedding of

* `src/common/util/table_1D.inl`  (`table_1D`, `_table_1D_factory`),
* `src/core/material.inl`         (`material`),
* `src/physics/electron_ionisation.h` (`electron_ionisation::create`),

followed by theorems about the embedded functions.

Conventions of the embedding.

* `real` is modelled by the rationals: arithmetic is exact, there is no rounding.
  The extended values of floating point (infinities, NaN, overflow beyond the
  largest finite value) are modelled separately by `ieee`, for the one property
  that is about them.
* `size_t` and `int` values are natural numbers and integers.  The `size_t`
  subtraction of `create` wraps around at `2^64` as in the source; the conversion
  of `_n - 2` to `int` is the integer `n - 2`, which is what the wrap-around
  followed by the conversion gives whenever `n - 2` is in the range of `int`.
* A pointer to a heap array is an `Option (List T)`: `none` is the null pointer.
  Reading outside the array (undefined in the source) is the value `none` of a
  function returning an `Option`.
-/

namespace nbl

/-- The scalar type `real` of the simulator, in exact arithmetic. -/
abbrev real := ℚ

/-! ## Extended floating-point values -/

/-- Values of an IEEE-style floating-point format whose largest finite magnitude
is `fmax`: finite numbers, the two infinities and NaN.  An operation whose exact
result exceeds `fmax` in magnitude overflows to the infinity of its sign.
Rounding inside the range and signed zeros are not modelled. -/
inductive ieee (fmax : ℚ) where
  | fin (q : ℚ)
  | pinf
  | ninf
  | nan
  deriving DecidableEq, Repr

namespace ieee

/-- The value of the format for the exact result `q` of an operation: `q` itself
inside `[-fmax, fmax]`, and the infinity of its sign beyond (overflow). -/
def overflow (fmax q : ℚ) : ieee fmax :=
  if fmax < q then pinf else if q < -fmax then ninf else fin q

/-- The infinity with the sign of `q`, and NaN for `q = 0` (`0 * inf = NaN`). -/
def signedInf (fmax q : ℚ) : ieee fmax :=
  if 0 < q then pinf else if q < 0 then ninf else nan

/-- IEEE addition: `inf + (-inf) = NaN`, NaN is absorbing, a finite sum may
overflow. -/
def add {fmax : ℚ} : ieee fmax → ieee fmax → ieee fmax
  | nan, _ => nan
  | _, nan => nan
  | fin a, fin b => overflow fmax (a + b)
  | fin _, pinf => pinf
  | fin _, ninf => ninf
  | pinf, fin _ => pinf
  | ninf, fin _ => ninf
  | pinf, pinf => pinf
  | ninf, ninf => ninf
  | pinf, ninf => nan
  | ninf, pinf => nan

/-- IEEE multiplication: `0 * inf = NaN`, NaN is absorbing, a finite product may
overflow. -/
def mul {fmax : ℚ} : ieee fmax → ieee fmax → ieee fmax
  | nan, _ => nan
  | _, nan => nan
  | fin a, fin b => overflow fmax (a * b)
  | fin a, pinf => signedInf fmax a
  | fin a, ninf => signedInf fmax (-a)
  | pinf, fin b => signedInf fmax b
  | ninf, fin b => signedInf fmax (-b)
  | pinf, pinf => pinf
  | ninf, ninf => pinf
  | pinf, ninf => ninf
  | ninf, pinf => ninf

instance (fmax : ℚ) : Add (ieee fmax) := ⟨add⟩
instance (fmax : ℚ) : Mul (ieee fmax) := ⟨mul⟩

/-- The value is NaN. -/
def isNaN {fmax : ℚ} : ieee fmax → Bool
  | nan => true
  | _ => false

/-- The value is a finite number. -/
def isFinite {fmax : ℚ} : ieee fmax → Bool
  | fin _ => true
  | _ => false

/-- The value can be stored in the format and is not NaN: a finite number of
magnitude at most `fmax`, or an infinity. -/
def inRange {fmax : ℚ} : ieee fmax → Bool
  | fin q => decide (-fmax ≤ q ∧ q ≤ fmax)
  | pinf => true
  | ninf => true
  | nan => false

end ieee

/-- The largest finite value of the IEEE binary32 format, `(2 - 2^-23) * 2^127`. -/
def binary32_max : ℚ := 2 ^ 128 - 2 ^ 104

/-- The element types `T` a table is instantiated with: they have the sum and
product used by `get`, and a `real` converts to them (the implicit conversion
of `frac_index` in the mixed product `frac_index*high_value`). -/
class Scalar (T : Type) extends Add T, Mul T where
  /-- Conversion of a `real` to the element type. -/
  ofReal : real → T

instance : Scalar real where
  ofReal := id

instance (fmax : ℚ) : Scalar (ieee fmax) where
  ofReal := ieee.overflow fmax

/-! ## Helpers of the numeric layer -/

/-- Modelled from the spec: `floorr` (declared outside `src/`), the floor of a
`real` as an `int`: "clamps the floor index". -/
def floorr (x : real) : Int := Int.floor x

/-- Modelled from the spec: `clampi` (declared outside `src/`), the clamp of an
`int` into `[low, high]`: "clamps the floor index to `[0, n-2]`". -/
def clampi (i low high : Int) : Int := min (max i low) high

/-- Subtraction of `size_t` values: it wraps around at `2^64` when the
mathematical difference is negative. -/
def size_t_sub (a b : Nat) : Nat :=
  if b ≤ a then a - b else a + 2 ^ 64 - b

/-- Read `p[i]` through a pointer with an `int` index: `none` when the pointer is
null or the index is outside the array. -/
def deref {T : Type} (p : Option (List T)) (i : Int) : Option T :=
  match p with
  | none => none
  | some buf => if 0 ≤ i then buf[i.toNat]? else none

namespace util

/-! ## `table_1D` -/

/-- The fields of `table_1D<T, gpu_flag>` that the `.inl` file reads and writes:
the buffer `_data`, the element count `_n`, the axis origin `_x_min` and the
inverse step `_x_step`. -/
structure table_1D (T : Type) where
  _data : Option (List T)
  _n : Nat
  _x_min : real
  _x_step : real
  deriving DecidableEq, Repr

/-- A default-constructed table (`table_1D<T, gpu_flag> table;`), before
`allocate` and `set` have run.  The fields are indeterminate in the source;
`create` overwrites each of them before it is read. -/
def table_1D.blank (T : Type) : table_1D T :=
  { _data := none, _n := 0, _x_min := 0, _x_step := 0 }

namespace _table_1D_factory

/-- `allocate` of both factories: record the count, reserve `n` elements
(`new T[n]` on the host, `cuda_new` on the device).  The contents of the fresh
buffer are indeterminate in the source; here they are the filler `fill`. -/
def allocate {T : Type} (fill : T) (table : table_1D T) (n : Nat) : table_1D T :=
  { table with _n := n, _data := some (List.replicate n fill) }

/-- `_table_1D_factory<T, false>::set`: `memcpy` of `_n` elements from `data`
into the buffer.  `none` when the table has no buffer, or when source or
destination hold fewer than `_n` elements. -/
def set_host {T : Type} (table : table_1D T) (data : List T) : Option (table_1D T) :=
  match table._data with
  | none => none
  | some buf =>
    if table._n ≤ data.length ∧ table._n ≤ buf.length then
      some { table with _data := some (data.take table._n ++ buf.drop table._n) }
    else none

/-- One iteration `device[i] = data[i]` of the copy loop of the device factory. -/
def copy_step {T : Type} (data : List T) (device : List T) (i : Nat) : Option (List T) :=
  match data[i]? with
  | none => none
  | some v => if i < device.length then some (device.set i v) else none

/-- `_table_1D_factory<T, true>::set`: inside the device memory scope, the loop
`for (i = 0; i < n; ++i) device[i] = data[i]`. -/
def set_device {T : Type} (table : table_1D T) (data : List T) : Option (table_1D T) :=
  match table._data with
  | none => none
  | some buf =>
    match (List.range table._n).foldlM (copy_step data) buf with
    | none => none
    | some device => some { table with _data := some device }

/-- `set` of the factory selected by `gpu_flag`. -/
def set {T : Type} (gpu_flag : Bool) (table : table_1D T) (data : List T) :
    Option (table_1D T) :=
  if gpu_flag then set_device table data else set_host table data

/-- `free` of both factories: release the buffer, reset pointer and count. -/
def free {T : Type} (table : table_1D T) : table_1D T :=
  { table with _data := none, _n := 0 }

end _table_1D_factory

namespace table_1D

/-- `table_1D::create(data, x_min, x_max, n)`: allocate, copy in, then record
`_x_min = x_min` and `_x_step = (n - 1) / (x_max - x_min)`.  `gpu_flag` selects
the factory and `fill` is the content of freshly allocated storage. -/
def create {T : Type} (gpu_flag : Bool) (fill : T) (data : List T)
    (x_min x_max : real) (n : Nat) : Option (table_1D T) :=
  let table := _table_1D_factory.allocate fill (table_1D.blank T) n
  match _table_1D_factory.set gpu_flag table data with
  | none => none
  | some table =>
    some { table with _x_min := x_min, _x_step := (size_t_sub n 1 : real) / (x_max - x_min) }

/-- `table_1D::destroy`. -/
def destroy {T : Type} (table : table_1D T) : table_1D T :=
  _table_1D_factory.free table

/-- `table_1D::operator()(i)`: the raw sample `_data[i]`. -/
def operator_call {T : Type} (table : table_1D T) (i : Nat) : Option T :=
  deref table._data (i : Int)

/-- The `x_index` of `get`: `(x - _x_min) * _x_step`. -/
def x_index {T : Type} (table : table_1D T) (x : real) : real :=
  (x - table._x_min) * table._x_step

/-- The `low_index` of `get`: `clampi(floorr(x_index), 0, _n - 2)`. -/
def low_index {T : Type} (table : table_1D T) (x : real) : Int :=
  clampi (floorr ((x - table._x_min) * table._x_step)) 0 ((table._n : Int) - 2)

/-- `table_1D::get(x)`. -/
def get {T : Type} [Scalar T] (table : table_1D T) (x : real) : Option T :=
  let x_index : real := (x - table._x_min) * table._x_step
  let low_index : Int := clampi (floorr x_index) 0 ((table._n : Int) - 2)
  match deref table._data low_index, deref table._data (low_index + 1) with
  | some low_value, some high_value =>
    let frac_index : real := x_index - low_index
    some (Scalar.ofReal (1 - frac_index) * low_value + Scalar.ofReal frac_index * high_value)
  | _, _ => none

/-- The implementation that `get` keeps in a comment ("Original implementation
does not handle infinities correctly"): the same indices and samples, and
`return low_value + (x_index - low_index) * (high_value - low_value)`. -/
def get_original (table : table_1D real) (x : real) : Option real :=
  let x_index : real := (x - table._x_min) * table._x_step
  let low_index : Int := clampi (floorr x_index) 0 ((table._n : Int) - 2)
  match deref table._data low_index, deref table._data (low_index + 1) with
  | some low_value, some high_value =>
    some (low_value + (x_index - low_index) * (high_value - low_value))
  | _, _ => none

end table_1D

/-- The grid point `x_i = x_min + i*(x_max - x_min)/(n-1)` of the uniform axis
with `n` points over `[x_min, x_max]`. -/
def grid_point (x_min x_max : real) (n : Nat) (i : Nat) : real :=
  x_min + i * (x_max - x_min) / ((n : real) - 1)

end util

/-! ## Legacy material parameters -/

/-- The part of `material_legacy_thomas` (declared outside `src/`) that the code
under `src/` calls: the barrier energy and the two ionisation-energy models, all
in legacy units (energies in joule). -/
structure material_legacy_thomas where
  barrier : real
  ionization_energy : real → real → real
  outer_shell_ionization_energy : real → real

/-! ## `material` -/

/-- `material<scatter_list<scatter_types...>>`: the composed processes (the
`scatter_list` base class, a value of type `S`) and the scalar `barrier`. -/
structure material (S : Type) where
  scatter : S
  barrier : real

/-- The constructor `material::material(mat_legacy)`.  `ec` is `constant::ec`
(declared outside `src/`) and `create` is the pack
`scatter_types::create(mat_legacy)...` that builds the processes. -/
def material.construct {S : Type} (ec : real) (create : material_legacy_thomas → S)
    (mat_legacy : material_legacy_thomas) : material S :=
  { scatter := create mat_legacy, barrier := mat_legacy.barrier / ec }

/-- `material::can_reach_vacuum(kineticEnergy)`. -/
def material.can_reach_vacuum {S : Type} (m : material S) (kineticEnergy : real) : Bool :=
  decide (kineticEnergy ≥ m.barrier)

namespace scatter

/-! ## `electron_ionisation::create` -/

/-- What `electron_ionisation::create` uses and `src/` does not declare: the grid
bounds and counts `K_min`, `K_max`, `K_cnt`, `P_cnt`, the elementary charge
`constant::ec`, and the functions `std::exp` and `std::log`. -/
structure ionisation_grid where
  K_min : real
  K_max : real
  K_cnt : Nat
  P_cnt : Nat
  ec : real
  exp : real → real
  log : real → real

namespace electron_ionisation

/-- The lambda `__logspace_K_at`: the kinetic energy (in eV) of column `x`. -/
def __logspace_K_at (g : ionisation_grid) (x : Nat) : real :=
  g.K_min * g.exp (1 * x / ((g.K_cnt : real) - 1) * g.log (g.K_max / g.K_min))

/-- The lambda `__linspace_P_at`: the probability of row `y`. -/
def __linspace_P_at (g : ionisation_grid) (y : Nat) : real :=
  1 * y / ((g.P_cnt : real) - 1)

/-- The body of the inner loop of `create`: the value of `binding` that is
stored for the energy `omega0` and the probability `P`. -/
def binding (g : ionisation_grid) (mat : material_legacy_thomas) (omega0 P : real) : real :=
  let margin : real := 10
  let binding0 : real := -1
  let binding1 : real :=
    if omega0 > 100 then
      let b := mat.ionization_energy ((omega0 + margin) * g.ec) P / g.ec
      if b < 50 then -1 else b
    else binding0
  if binding1 < 0 then
    let b := mat.outer_shell_ionization_energy (omega0 * g.ec) / g.ec
    if b < 0 then -1 else b
  else binding1

/-- The inner loop of `create` for the row `y`:
`for x in [0, K_cnt): ionisation_vector[y*K_cnt + x] = binding`. -/
def fill_row (g : ionisation_grid) (mat : material_legacy_thomas) (y : Nat)
    (ionisation_vector : List real) : List real :=
  let P := __linspace_P_at g y
  (List.range g.K_cnt).foldl
    (fun v x => v.set (y * g.K_cnt + x) (binding g mat (__logspace_K_at g x) P))
    ionisation_vector

/-- The buffer `ionisation_vector` that `create` hands to the 2D table: `K_cnt*P_cnt`
zeros, then the outer loop over the rows `y in [0, P_cnt)`. -/
def ionisation_vector (g : ionisation_grid) (mat : material_legacy_thomas) : List real :=
  (List.range g.P_cnt).foldl (fun v y => fill_row g mat y v)
    (List.replicate (g.K_cnt * g.P_cnt) 0)

/-- The axis arguments of the call `table_2D::create(ionisation_vector.data(),
logr(K_min), logr(K_max), K_cnt, 0, 1, P_cnt)` that ends `create`: the bounds and
the count of the energy axis, then those of the probability axis. -/
def table_axes (g : ionisation_grid) : (real × real × Nat) × (real × real × Nat) :=
  ((g.log g.K_min, g.log g.K_max, g.K_cnt), (0, 1, g.P_cnt))

end electron_ionisation

/-- What `electron_ionisation::sample` uses and `src/` does not declare: `logr`,
the draw `unit()` of `random_generator` (a generator state `G` goes in, the draw
and the next state come out) and the lookup `get_rounddown` of the 2D table
(a value of type `Tab`). -/
structure sample_env (Tab G : Type) where
  logr : real → real
  unit : G → real × G
  get_rounddown : Tab → real → real → real

/-- The class `electron_ionisation<gpu_flag>`: its one member is the table. -/
structure electron_ionisation (Tab : Type) where
  _ionisation_table : Tab

/-- `electron_ionisation::sample(K, rng)`.  The method is `const` and takes the
generator by reference: the result is the returned value, the instance after
the call and the generator after the call. -/
def electron_ionisation.sample {Tab G : Type} (env : sample_env Tab G)
    (self : electron_ionisation Tab) (K : real) (rng : G) :
    real × electron_ionisation Tab × G :=
  let x := env.logr K
  let draw := env.unit rng
  let y := draw.1
  (env.get_rounddown self._ionisation_table x y, self, draw.2)

/-- A generator that reads its draws from a fixed sequence: the state is the
number of draws made so far. -/
def sequence_generator (draws : Nat → real) (position : Nat) : real × Nat :=
  (draws position, position + 1)

/-- A grid of two energies, 50 eV and 200 eV, and two probabilities, 0 and 1,
with `ec = 1.602176634e-19`.  `exp` and `log` are given at the points the two
columns use (`log 4` and `exp (log 4) = 4`, `exp 0 = 1`), in base 4: the base
cancels in `__logspace_K_at`. -/
def two_column_grid : ionisation_grid where
  K_min := 50
  K_max := 200
  K_cnt := 2
  P_cnt := 2
  ec := 1602176634 / 10 ^ 28
  exp := fun q => if q = 0 then 1 else 4
  log := fun _ => 1

/-- Legacy parameters whose primary model answers 60 eV and whose secondary
model answers 5 eV, at every energy (both in joule). -/
def flat_material : material_legacy_thomas where
  barrier := 0
  ionization_energy := fun _ _ => 60 * (1602176634 / 10 ^ 28)
  outer_shell_ionization_energy := fun _ => 5 * (1602176634 / 10 ^ 28)

/-- A grid of three energies, 1 eV, 4 eV and 16 eV, and three probabilities.
`exp` and `log` are given in base 4 at the points the grid uses (`exp 0 = 1`,
`exp 1 = 4`, `exp 2 = 16` and `log 1 = 0`, `log 4 = 1`, `log 16 = 2`): the base
cancels in `__logspace_K_at`. -/
def three_column_grid : ionisation_grid where
  K_min := 1
  K_max := 16
  K_cnt := 3
  P_cnt := 3
  ec := 1602176634 / 10 ^ 28
  exp := fun q => if q = 0 then 1 else if q = 1 then 4 else 16
  log := fun r => if r = 1 then 0 else if r = 4 then 1 else 2

end scatter

end nbl

namespace nbl

open util

/-! ## Basic facts about the helpers -/

theorem size_t_sub_one {n : Nat} (hn : 1 ≤ n) : size_t_sub n 1 = n - 1 := by
  simp [size_t_sub, hn]

theorem clampi_bounds (i low high : Int) (h : low ≤ high) :
    low ≤ clampi i low high ∧ clampi i low high ≤ high := by
  unfold clampi
  constructor
  · exact le_min (le_max_right _ _) h
  · exact min_le_right _ _

theorem clampi_of_mem {i low high : Int} (h1 : low ≤ i) (h2 : i ≤ high) :
    clampi i low high = i := by
  unfold clampi
  rw [max_eq_left h1, min_eq_left h2]

theorem clampi_of_le_low {i low high : Int} (h1 : i ≤ low) (h2 : low ≤ high) :
    clampi i low high = low := by
  unfold clampi
  rw [max_eq_right h1, min_eq_left h2]

theorem clampi_of_high_le {i low high : Int} (h1 : high ≤ i) (h2 : low ≤ high) :
    clampi i low high = high := by
  unfold clampi
  rw [max_eq_left (le_trans h2 h1), min_eq_right h1]

theorem deref_some_nat {T : Type} (buf : List T) (k : Nat) (hk : k < buf.length) :
    deref (some buf) (k : Int) = some buf[k] := by
  simp [deref, hk]

/-! ## The copy-in path -/

theorem set_host_eq {T : Type} (fill : T) (data : List T) (t : table_1D T) :
    _table_1D_factory.set_host (_table_1D_factory.allocate fill t data.length) data
      = some { t with _n := data.length, _data := some data } := by
  simp [_table_1D_factory.set_host, _table_1D_factory.allocate]

theorem copy_loop_prefix {T : Type} (data : List T) :
    ∀ (k : Nat) (buf : List T), k ≤ data.length → buf.length = data.length →
      (List.range k).foldlM (_table_1D_factory.copy_step data) buf
        = some (data.take k ++ buf.drop k) := by
  intro k
  induction k with
  | zero => intro buf _ _; simp
  | succ k ih =>
    intro buf hk hlen
    have hk1 : k < data.length := hk
    rw [List.range_succ, List.foldlM_append, ih buf (Nat.le_of_lt hk1) hlen]
    have hlen2 : (List.take k data ++ List.drop k buf).length = data.length := by
      simp; omega
    simp only [Option.bind_eq_bind, Option.some_bind, List.foldlM_cons, List.foldlM_nil,
      _table_1D_factory.copy_step, List.getElem?_eq_getElem hk1, hlen2, hk1, if_true,
      Option.bind_some]
    congr 1
    apply List.ext_getElem
    · simp; omega
    · intro i h1 h2
      have ht : (List.take k data).length = k := by rw [List.length_take]; omega
      have ht1 : (List.take (k + 1) data).length = k + 1 := by rw [List.length_take]; omega
      simp only [List.getElem_set]
      by_cases hik : k = i
      · subst hik
        have hA : k < (List.take (k + 1) data).length := by omega
        rw [List.getElem_append_left hA]
        simp [List.getElem_take]
      · simp only [hik, if_false]
        by_cases hlt : i < k
        · have hA : i < (List.take k data).length := by omega
          have hB : i < (List.take (k + 1) data).length := by omega
          rw [List.getElem_append_left hA, List.getElem_append_left hB]
          simp [List.getElem_take]
        · have hA : (List.take k data).length ≤ i := by omega
          have hB : (List.take (k + 1) data).length ≤ i := by omega
          rw [List.getElem_append_right hA, List.getElem_append_right hB]
          simp only [List.getElem_drop, ht, ht1]
          congr 1
          omega

theorem set_device_eq {T : Type} (fill : T) (data : List T) (t : table_1D T) :
    _table_1D_factory.set_device (_table_1D_factory.allocate fill t data.length) data
      = some { t with _n := data.length, _data := some data } := by
  simp [_table_1D_factory.set_device, _table_1D_factory.allocate,
    copy_loop_prefix data data.length (List.replicate data.length fill) le_rfl (by simp)]

/-- On a source array of exactly `n` elements, `create` returns the table that
holds a copy of the array, the count `n`, the origin `x_min` and the inverse
step `(n - 1) / (x_max - x_min)`, on either backend. -/
theorem create_eq {T : Type} (gpu_flag : Bool) (fill : T) (data : List T)
    (x_min x_max : real) :
    table_1D.create gpu_flag fill data x_min x_max data.length
      = some { _data := some data, _n := data.length, _x_min := x_min,
               _x_step := (size_t_sub data.length 1 : real) / (x_max - x_min) } := by
  cases gpu_flag
  · simp [table_1D.create, _table_1D_factory.set, set_host_eq, table_1D.blank]
  · simp [table_1D.create, _table_1D_factory.set, set_device_eq, table_1D.blank]

/-! ## `get` on a table that holds `n ≥ 2` samples -/

/-- The table `create` returns for the array `data`. -/
theorem create_fields {T : Type} (gpu_flag : Bool) (fill : T) (data : List T)
    (x_min x_max : real) (n : Nat) (hlen : data.length = n) (hn : 1 ≤ n) :
    table_1D.create gpu_flag fill data x_min x_max n
      = some { _data := some data, _n := n, _x_min := x_min,
               _x_step := ((n : real) - 1) / (x_max - x_min) } := by
  subst hlen
  rw [create_eq, size_t_sub_one hn]
  simp [Nat.cast_sub hn]

theorem get_eq_of_low_index {T : Type} [Scalar T] (t : table_1D T) (data : List T)
    (x : real) (k : Nat) (hd : t._data = some data) (hk : k + 1 < data.length)
    (hlow : t.low_index x = (k : Int)) :
    t.get x = some (Scalar.ofReal (1 - (t.x_index x - k)) * data[k]
      + Scalar.ofReal (t.x_index x - k) * data[k + 1]) := by
  have h0 : deref (some data) (k : Int) = some data[k] := deref_some_nat data k (by omega)
  have h1 : deref (some data) ((k : Int) + 1) = some data[k + 1] := by
    have := deref_some_nat data (k + 1) hk
    simpa using this
  unfold table_1D.low_index at hlow
  simp only [table_1D.get, hlow, hd, h0, h1, table_1D.x_index, Int.cast_natCast]

theorem get_real_of_low_index (t : table_1D real) (data : List real)
    (x : real) (k : Nat) (hd : t._data = some data) (hk : k + 1 < data.length)
    (hlow : t.low_index x = (k : Int)) :
    t.get x = some ((1 - (t.x_index x - k)) * data[k] + (t.x_index x - k) * data[k + 1]) :=
  get_eq_of_low_index t data x k hd hk hlow

theorem low_index_of_mem {T : Type} (t : table_1D T) (x : real) (k : Nat)
    (hk : k + 2 ≤ t._n) (h1 : (k : real) ≤ t.x_index x) (h2 : t.x_index x < k + 1) :
    t.low_index x = (k : Int) := by
  have hf : floorr ((x - t._x_min) * t._x_step) = (k : Int) := by
    unfold floorr
    rw [Int.floor_eq_iff]
    exact ⟨by simpa [table_1D.x_index] using h1, by simpa [table_1D.x_index] using h2⟩
  unfold table_1D.low_index
  rw [hf]
  exact clampi_of_mem (by omega) (by omega)

theorem low_index_of_neg {T : Type} (t : table_1D T) (x : real)
    (hn : 2 ≤ t._n) (h : t.x_index x < 0) : t.low_index x = ((0 : Nat) : Int) := by
  have hf : floorr ((x - t._x_min) * t._x_step) ≤ 0 := by
    unfold floorr
    have : Int.floor ((x - t._x_min) * t._x_step) < 0 := by
      rw [Int.floor_lt]
      simpa [table_1D.x_index] using h
    omega
  unfold table_1D.low_index
  rw [clampi_of_le_low hf (by omega)]
  rfl

theorem low_index_of_ge {T : Type} (t : table_1D T) (x : real) (m : Nat)
    (hn : t._n = m + 2) (h : (m : real) ≤ t.x_index x) : t.low_index x = (m : Int) := by
  have hf : (m : Int) ≤ floorr ((x - t._x_min) * t._x_step) := by
    unfold floorr
    rw [Int.le_floor]
    simpa [table_1D.x_index] using h
  unfold table_1D.low_index
  have e : ((t._n : Int) - 2) = (m : Int) := by omega
  rw [e]
  exact clampi_of_high_le hf (by omega)

/-! ### The continuous index on the axis of a created table -/

theorem x_step_pos {T : Type} (t : table_1D T) (x_max : real) (hn : 2 ≤ t._n)
    (hx : t._x_min < x_max) (hs : t._x_step = ((t._n : real) - 1) / (x_max - t._x_min)) :
    0 < t._x_step := by
  have h1 : (2 : real) ≤ (t._n : real) := by exact_mod_cast hn
  rw [hs]
  exact div_pos (by linarith) (by linarith)

theorem x_index_grid {T : Type} (t : table_1D T) (x_max : real) (hn : 2 ≤ t._n)
    (hx : t._x_min < x_max) (hs : t._x_step = ((t._n : real) - 1) / (x_max - t._x_min))
    (x : real) (i : Nat) :
    t.x_index x - i = (x - grid_point t._x_min x_max t._n i) * t._x_step := by
  have h1 : (2 : real) ≤ (t._n : real) := by exact_mod_cast hn
  have hne : x_max - t._x_min ≠ 0 := by linarith
  have hne2 : (t._n : real) - 1 ≠ 0 := by linarith
  unfold table_1D.x_index grid_point
  rw [hs]
  field_simp
  ring

theorem grid_point_succ_sub {T : Type} (t : table_1D T) (x_max : real) (hn : 2 ≤ t._n)
    (hx : t._x_min < x_max) (hs : t._x_step = ((t._n : real) - 1) / (x_max - t._x_min))
    (i : Nat) :
    (grid_point t._x_min x_max t._n (i + 1) - grid_point t._x_min x_max t._n i) * t._x_step
      = 1 := by
  have h1 : (2 : real) ≤ (t._n : real) := by exact_mod_cast hn
  have hne : x_max - t._x_min ≠ 0 := by linarith
  have hne2 : (t._n : real) - 1 ≠ 0 := by linarith
  unfold grid_point
  rw [hs]
  push_cast
  field_simp
  ring

theorem x_index_x_max {T : Type} (t : table_1D T) (x_max : real)
    (hx : t._x_min < x_max) (hs : t._x_step = ((t._n : real) - 1) / (x_max - t._x_min)) :
    t.x_index x_max = (t._n : real) - 1 := by
  have hne : x_max - t._x_min ≠ 0 := by linarith
  unfold table_1D.x_index
  rw [hs]
  field_simp

/-! ### Values of `get` -/

theorem get_x_min (t : table_1D real) (data : List real) (hd : t._data = some data)
    (hlen : data.length = t._n) (hn : 2 ≤ t._n) :
    t.get t._x_min = some data[0] := by
  rw [get_real_of_low_index t data t._x_min 0 hd (by omega)
    (low_index_of_mem t _ 0 (by simpa using hn) (by simp [table_1D.x_index])
      (by simp [table_1D.x_index]))]
  simp [table_1D.x_index]

theorem get_x_max (t : table_1D real) (data : List real) (x_max : real)
    (hd : t._data = some data) (hlen : data.length = t._n) (hn : 2 ≤ t._n)
    (hx : t._x_min < x_max) (hs : t._x_step = ((t._n : real) - 1) / (x_max - t._x_min)) :
    t.get x_max = some data[t._n - 1] := by
  obtain ⟨m, hm⟩ : ∃ m, t._n = m + 2 := ⟨t._n - 2, by omega⟩
  have hxi : t.x_index x_max = (m : real) + 1 := by
    rw [x_index_x_max t x_max hx hs, hm]
    push_cast
    ring
  rw [get_real_of_low_index t data x_max m hd (by omega)
    (low_index_of_ge t _ m hm (by rw [hxi]; linarith))]
  simp only [hxi, hm]
  simp

/-- Below the axis origin the interval index is `0` and the offset is the
(negative) continuous index itself. -/
theorem get_below (t : table_1D real) (data : List real) (x_max : real)
    (hd : t._data = some data) (hlen : data.length = t._n) (hn : 2 ≤ t._n)
    (hx : t._x_min < x_max) (hs : t._x_step = ((t._n : real) - 1) / (x_max - t._x_min))
    (x : real) (hlt : x < t._x_min) :
    t.x_index x < 0 ∧
    t.get x = some ((1 - t.x_index x) * data[0] + t.x_index x * data[1]) := by
  have hneg : t.x_index x < 0 := by
    unfold table_1D.x_index
    exact mul_neg_of_neg_of_pos (by linarith) (x_step_pos t x_max hn hx hs)
  refine ⟨hneg, ?_⟩
  rw [get_real_of_low_index t data x 0 hd (by omega) (low_index_of_neg t x hn hneg)]
  simp

/-- Above the axis end the interval index is `n - 2` and the offset exceeds `1`. -/
theorem get_above (t : table_1D real) (data : List real) (x_max : real)
    (hd : t._data = some data) (hlen : data.length = t._n) (hn : 2 ≤ t._n)
    (hx : t._x_min < x_max) (hs : t._x_step = ((t._n : real) - 1) / (x_max - t._x_min))
    (x : real) (hgt : x_max < x) :
    1 < t.x_index x - ((t._n - 2 : Nat) : real) ∧
    t.get x = some ((1 - (t.x_index x - ((t._n - 2 : Nat) : real))) * data[t._n - 2]
      + (t.x_index x - ((t._n - 2 : Nat) : real)) * data[t._n - 1]) := by
  obtain ⟨m, hm⟩ : ∃ m, t._n = m + 2 := ⟨t._n - 2, by omega⟩
  have hmax : t.x_index x_max = (m : real) + 1 := by
    rw [x_index_x_max t x_max hx hs, hm]
    push_cast
    ring
  have hgt2 : (m : real) + 1 < t.x_index x := by
    rw [← hmax]
    unfold table_1D.x_index
    exact mul_lt_mul_of_pos_right (by linarith) (x_step_pos t x_max hn hx hs)
  have e : t._n - 2 = m := by omega
  have e1 : t._n - 1 = m + 1 := by omega
  simp only [e, e1]
  refine ⟨by linarith, ?_⟩
  rw [get_real_of_low_index t data x m hd (by omega)
    (low_index_of_ge t _ m hm (by linarith))]

/-- Between two consecutive grid points, both included, `get` is the affine
combination of the two samples with the offset `x_index - i`. -/
theorem get_between (t : table_1D real) (data : List real)
    (hd : t._data = some data) (hlen : data.length = t._n)
    (x : real) (i : Nat) (hi : i + 2 ≤ t._n)
    (h1 : (i : real) ≤ t.x_index x) (h2 : t.x_index x ≤ (i : real) + 1) :
    t.get x = some ((1 - (t.x_index x - i)) * data[i] + (t.x_index x - i) * data[i + 1]) := by
  rcases lt_or_eq_of_le h2 with h | h
  · exact get_real_of_low_index t data x i hd (by omega) (low_index_of_mem t x i hi h1 h)
  · by_cases hlast : i + 2 = t._n
    · rw [get_real_of_low_index t data x i hd (by omega)
        (low_index_of_ge t x i hlast.symm h1)]
    · have hk : (((i + 1 : Nat) : real)) = (i : real) + 1 := by push_cast; ring
      rw [get_real_of_low_index t data x (i + 1) hd (by omega)
        (low_index_of_mem t x (i + 1) (by omega) (by rw [hk, h]) (by rw [hk, h]; linarith))]
      have e1 : t.x_index x - ((i + 1 : Nat) : real) = 0 := by rw [hk, h]; ring
      have e2 : t.x_index x - (i : real) = 1 := by rw [h]; ring
      simp only [e1, e2]
      simp

/-! ## Boundary exactness -/

/-- C2: for `n ≥ 2`, `x_min < x_max` and an array `data` of `n` samples, `create`
returns a table whose `get` gives `data[0]` at `x_min` and `data[n-1]` at
`x_max`, in exact arithmetic and on either backend. -/
theorem table_1D_boundary_exactness (gpu_flag : Bool) (fill : real) (data : List real)
    (x_min x_max : real) (n : Nat) (hlen : data.length = n) (hn : 2 ≤ n)
    (hx : x_min < x_max) :
    ∃ t, table_1D.create gpu_flag fill data x_min x_max n = some t ∧
      t.get x_min = some data[0] ∧ t.get x_max = some data[n - 1] := by
  subst hlen
  exact ⟨_, create_fields gpu_flag fill data x_min x_max _ rfl (by omega),
    get_x_min _ data rfl rfl hn, get_x_max _ data x_max rfl rfl hn hx rfl⟩

theorem table_1D_boundary_exactness_witness :
    ([0, 10, 20] : List real).length = 3 ∧ 2 ≤ 3 ∧ (0 : real) < 2 ∧
    ∃ t, table_1D.create false 0 ([0, 10, 20] : List real) 0 2 3 = some t ∧
      t.get 0 = some 0 ∧ t.get 2 = some 20 :=
  ⟨rfl, by decide, by norm_num,
    table_1D_boundary_exactness false 0 [0, 10, 20] 0 2 3 rfl (by decide) (by norm_num)⟩

/-! ## Queries outside the axis -/

/-- C1, as stated, fails: on the table built from `[0, 10, 20]` over `[0, 2]`,
`get(-5)` is `-50` and not `get(0) = 0`, and `get(100)` is `1000` and not
`get(2) = 20`. -/
theorem table_1D_clamping_counterexample :
    ∃ t, table_1D.create false 0 ([0, 10, 20] : List real) 0 2 3 = some t ∧
      t.get (-5) = some (-50) ∧ t.get 0 = some 0 ∧ t.get (-5) ≠ t.get 0 ∧
      t.get 100 = some 1000 ∧ t.get 2 = some 20 ∧ t.get 100 ≠ t.get 2 := by
  have hc : table_1D.create false 0 ([0, 10, 20] : List real) 0 2 3
      = some ⟨some [0, 10, 20], 3, 0, 1⟩ := by
    rw [create_fields false (0 : real) [0, 10, 20] 0 2 3 rfl (by decide)]
    norm_num
  have h0 : table_1D.get ⟨some ([0, 10, 20] : List real), 3, 0, 1⟩ 0 = some 0 :=
    get_x_min ⟨some ([0, 10, 20] : List real), 3, 0, 1⟩ [0, 10, 20] rfl rfl (by decide)
  have h2 : table_1D.get ⟨some ([0, 10, 20] : List real), 3, 0, 1⟩ 2 = some 20 :=
    get_x_max ⟨some ([0, 10, 20] : List real), 3, 0, 1⟩ [0, 10, 20] 2 rfl rfl (by decide)
      (by norm_num) (by norm_num)
  have hb : table_1D.get ⟨some ([0, 10, 20] : List real), 3, 0, 1⟩ (-5) = some (-50) := by
    rw [(get_below ⟨some ([0, 10, 20] : List real), 3, 0, 1⟩ [0, 10, 20] 2 rfl rfl
      (by decide) (by norm_num) (by norm_num) (-5) (by norm_num)).2]
    norm_num [table_1D.x_index]
  have ha : table_1D.get ⟨some ([0, 10, 20] : List real), 3, 0, 1⟩ 100 = some 1000 := by
    rw [(get_above ⟨some ([0, 10, 20] : List real), 3, 0, 1⟩ [0, 10, 20] 2 rfl rfl
      (by decide) (by norm_num) (by norm_num) 100 (by norm_num)).2]
    norm_num [table_1D.x_index]
  refine ⟨_, hc, hb, h0, ?_, ha, h2, ?_⟩
  · rw [hb, h0]; norm_num
  · rw [ha, h2]; norm_num

/-- C1, amended: for `n ≥ 2`, `x_min < x_max` and an array `data` of `n` samples,
`create` returns a table on which, for `x < x_min`, `get(x) = get(x_min)` holds
exactly when `data[0] = data[1]`, and for `x > x_max`, `get(x) = get(x_max)`
holds exactly when `data[n-2] = data[n-1]`. -/
theorem table_1D_clamping_iff_flat (gpu_flag : Bool) (fill : real) (data : List real)
    (x_min x_max : real) (n : Nat) (hlen : data.length = n) (hn : 2 ≤ n)
    (hx : x_min < x_max) :
    ∃ t, table_1D.create gpu_flag fill data x_min x_max n = some t ∧
      (∀ x, x < x_min → (t.get x = t.get x_min ↔ data[0] = data[1])) ∧
      (∀ x, x_max < x → (t.get x = t.get x_max ↔ data[n - 2] = data[n - 1])) := by
  subst hlen
  refine ⟨_, create_fields gpu_flag fill data x_min x_max _ rfl (by omega), ?_, ?_⟩
  · intro x hlt
    obtain ⟨hneg, hget⟩ := get_below ⟨some data, data.length, x_min,
      ((data.length : real) - 1) / (x_max - x_min)⟩ data x_max rfl rfl hn hx rfl x hlt
    rw [hget, get_x_min ⟨some data, data.length, x_min,
      ((data.length : real) - 1) / (x_max - x_min)⟩ data rfl rfl hn]
    simp only [Option.some.injEq]
    constructor
    · intro h
      have h3 : table_1D.x_index (⟨some data, data.length, x_min,
          ((data.length : real) - 1) / (x_max - x_min)⟩ : table_1D real) x
          * (data[1] - data[0]) = 0 := by linarith
      rcases mul_eq_zero.mp h3 with h4 | h4
      · exact absurd h4 (ne_of_lt hneg)
      · linarith
    · intro h
      rw [← h]
      ring
  · intro x hgt
    obtain ⟨hf, hget⟩ := get_above ⟨some data, data.length, x_min,
      ((data.length : real) - 1) / (x_max - x_min)⟩ data x_max rfl rfl hn hx rfl x hgt
    rw [hget, get_x_max ⟨some data, data.length, x_min,
      ((data.length : real) - 1) / (x_max - x_min)⟩ data x_max rfl rfl hn hx rfl]
    simp only [Option.some.injEq]
    constructor
    · intro h
      have h3 : (1 - (table_1D.x_index (⟨some data, data.length, x_min,
          ((data.length : real) - 1) / (x_max - x_min)⟩ : table_1D real) x
          - ((data.length - 2 : Nat) : real))) * (data[data.length - 2] - data[data.length - 1])
          = 0 := by linarith
      rcases mul_eq_zero.mp h3 with h4 | h4
      · linarith
      · linarith
    · intro h
      rw [h]
      ring

theorem table_1D_clamping_iff_flat_witness :
    ([7, 7, 9, 9] : List real).length = 4 ∧ 2 ≤ 4 ∧ (0 : real) < 3 ∧
    ∃ t, table_1D.create false 0 ([7, 7, 9, 9] : List real) 0 3 4 = some t ∧
      (∀ x, x < 0 → (t.get x = t.get 0 ↔ (7 : real) = 7)) ∧
      (∀ x, 3 < x → (t.get x = t.get 3 ↔ (9 : real) = 9)) :=
  ⟨rfl, by decide, by norm_num,
    table_1D_clamping_iff_flat false 0 [7, 7, 9, 9] 0 3 4 rfl (by decide) (by norm_num)⟩

/-! ## Interpolation inside the axis -/

theorem grid_point_index_bounds {T : Type} (t : table_1D T) (x_max : real) (hn : 2 ≤ t._n)
    (hx : t._x_min < x_max) (hs : t._x_step = ((t._n : real) - 1) / (x_max - t._x_min))
    (x : real) (i : Nat) :
    (grid_point t._x_min x_max t._n i ≤ x ↔ (i : real) ≤ t.x_index x) ∧
    (grid_point t._x_min x_max t._n i < x ↔ (i : real) < t.x_index x) ∧
    (x ≤ grid_point t._x_min x_max t._n (i + 1) ↔ t.x_index x ≤ (i : real) + 1) ∧
    (x < grid_point t._x_min x_max t._n (i + 1) ↔ t.x_index x < (i : real) + 1) := by
  have hpos := x_step_pos t x_max hn hx hs
  have e0 := x_index_grid t x_max hn hx hs x i
  have e1 := x_index_grid t x_max hn hx hs x (i + 1)
  push_cast at e1
  refine ⟨?_, ?_, ?_, ?_⟩
  · rw [← sub_nonneg, ← sub_nonneg (a := t.x_index x), e0]
    exact (mul_nonneg_iff_of_pos_right hpos).symm
  · rw [← sub_pos, ← sub_pos (a := t.x_index x), e0]
    exact (mul_pos_iff_of_pos_right hpos).symm
  · rw [← sub_nonpos, ← sub_nonpos (a := t.x_index x), e1]
    constructor
    · intro h
      exact mul_nonpos_of_nonpos_of_nonneg h hpos.le
    · intro h
      by_contra hc
      push_neg at hc
      have := mul_pos hc hpos
      linarith
  · rw [← sub_neg, ← sub_neg (a := t.x_index x), e1]
    constructor
    · intro h
      exact mul_neg_of_neg_of_pos h hpos
    · intro h
      by_contra hc
      push_neg at hc
      have := mul_nonneg hc hpos.le
      linarith

/-- Between the grid points `x_i` and `x_{i+1}`, both included, `get` is the
interpolant written with the grid points. -/
theorem get_interp (t : table_1D real) (data : List real) (x_max : real)
    (hd : t._data = some data) (hlen : data.length = t._n) (hn : 2 ≤ t._n)
    (hx : t._x_min < x_max) (hs : t._x_step = ((t._n : real) - 1) / (x_max - t._x_min))
    (i : Nat) (hi : i + 2 ≤ t._n) (x : real)
    (h1 : grid_point t._x_min x_max t._n i ≤ x)
    (h2 : x ≤ grid_point t._x_min x_max t._n (i + 1)) :
    t.get x = some (data[i] + (x - grid_point t._x_min x_max t._n i)
      / (grid_point t._x_min x_max t._n (i + 1) - grid_point t._x_min x_max t._n i)
      * (data[i + 1] - data[i])) := by
  have hb := grid_point_index_bounds t x_max hn hx hs x i
  have hpos := x_step_pos t x_max hn hx hs
  have e0 := x_index_grid t x_max hn hx hs x i
  have e1 := grid_point_succ_sub t x_max hn hx hs i
  rw [get_between t data hd hlen x i hi (hb.1.mp h1) (hb.2.2.1.mp h2)]
  have e2 : grid_point t._x_min x_max t._n (i + 1) - grid_point t._x_min x_max t._n i
      = 1 / t._x_step := by
    field_simp
    exact e1
  rw [e2, e0]
  congr 1
  field_simp
  ring

/-- C3: for `n ≥ 2`, `x_min < x_max`, grid points `x_i = x_min + i*(x_max - x_min)/(n-1)`,
every `i ≤ n-2` and every `x` with `x_i ≤ x ≤ x_{i+1}`, the table returned by
`create` satisfies `get(x) = data[i] + (x - x_i)/(x_{i+1} - x_i) * (data[i+1] - data[i])`,
and `get` returns `data[i]` at `x_i` and `data[i+1]` at `x_{i+1}`. -/
theorem table_1D_piecewise_linear (gpu_flag : Bool) (fill : real) (data : List real)
    (x_min x_max : real) (n : Nat) (hlen : data.length = n) (hn : 2 ≤ n)
    (hx : x_min < x_max) (i : Nat) (hi : i + 2 ≤ n) (x : real)
    (h1 : grid_point x_min x_max n i ≤ x) (h2 : x ≤ grid_point x_min x_max n (i + 1)) :
    ∃ t, table_1D.create gpu_flag fill data x_min x_max n = some t ∧
      t.get x = some (data[i] + (x - grid_point x_min x_max n i)
        / (grid_point x_min x_max n (i + 1) - grid_point x_min x_max n i)
        * (data[i + 1] - data[i])) ∧
      t.get (grid_point x_min x_max n i) = some data[i] ∧
      t.get (grid_point x_min x_max n (i + 1)) = some data[i + 1] := by
  subst hlen
  have hstep := grid_point_succ_sub (⟨some data, data.length, x_min,
    ((data.length : real) - 1) / (x_max - x_min)⟩ : table_1D real) x_max hn hx rfl i
  have hpos := x_step_pos (⟨some data, data.length, x_min,
    ((data.length : real) - 1) / (x_max - x_min)⟩ : table_1D real) x_max hn hx rfl
  have hlt : grid_point x_min x_max data.length i < grid_point x_min x_max data.length (i + 1) := by
    by_contra hc
    push_neg at hc
    have := mul_nonpos_of_nonpos_of_nonneg (sub_nonpos.mpr hc) hpos.le
    simp only at hstep this
    linarith
  refine ⟨_, create_fields gpu_flag fill data x_min x_max _ rfl (by omega),
    get_interp _ data x_max rfl rfl hn hx rfl i hi x h1 h2, ?_, ?_⟩
  · rw [get_interp _ data x_max rfl rfl hn hx rfl i hi _ le_rfl hlt.le]
    simp
  · rw [get_interp _ data x_max rfl rfl hn hx rfl i hi _ hlt.le le_rfl]
    have hne : grid_point x_min x_max data.length (i + 1)
        - grid_point x_min x_max data.length i ≠ 0 := by linarith
    simp only [div_self hne]
    simp

theorem table_1D_piecewise_linear_witness :
    ∃ t, table_1D.create false 0 ([0, 10, 20] : List real) 0 2 3 = some t ∧
      t.get (1 / 2) = some 5 ∧ t.get 0 = some 0 ∧ t.get 1 = some 10 := by
  have h := table_1D_piecewise_linear false 0 [0, 10, 20] 0 2 3 rfl (by decide) (by norm_num)
    0 (by decide) (1 / 2) (by norm_num [grid_point]) (by norm_num [grid_point])
  norm_num [grid_point] at h
  exact h

/-- C4: for `n ≥ 2`, `x_min < x_max`, every `i ≤ n-2` and every `x` strictly
between the grid points `i` and `i+1`, the table returned by `create` gives a
value `get(x)` with `min(data[i], data[i+1]) ≤ get(x) ≤ max(data[i], data[i+1])`. -/
theorem table_1D_betweenness (gpu_flag : Bool) (fill : real) (data : List real)
    (x_min x_max : real) (n : Nat) (hlen : data.length = n) (hn : 2 ≤ n)
    (hx : x_min < x_max) (i : Nat) (hi : i + 2 ≤ n) (x : real)
    (h1 : grid_point x_min x_max n i < x) (h2 : x < grid_point x_min x_max n (i + 1)) :
    ∃ t, table_1D.create gpu_flag fill data x_min x_max n = some t ∧
      ∃ v, t.get x = some v ∧ min data[i] data[i + 1] ≤ v ∧ v ≤ max data[i] data[i + 1] := by
  subst hlen
  have hb := grid_point_index_bounds (⟨some data, data.length, x_min,
    ((data.length : real) - 1) / (x_max - x_min)⟩ : table_1D real) x_max hn hx rfl x i
  have hf0 := hb.2.1.mp h1
  have hf1 := hb.2.2.2.mp h2
  refine ⟨_, create_fields gpu_flag fill data x_min x_max _ rfl (by omega), _,
    get_between _ data rfl rfl x i hi hf0.le hf1.le, ?_, ?_⟩
  · rcases le_total data[i] data[i + 1] with h | h
    · rw [min_eq_left h]
      nlinarith
    · rw [min_eq_right h]
      nlinarith
  · rcases le_total data[i] data[i + 1] with h | h
    · rw [max_eq_right h]
      nlinarith
    · rw [max_eq_left h]
      nlinarith

theorem table_1D_betweenness_witness :
    ∃ t, table_1D.create false 0 ([0, 10, 20] : List real) 0 2 3 = some t ∧
      ∃ v, t.get (3 / 2) = some v ∧ min (10 : real) 20 ≤ v ∧ v ≤ max (10 : real) 20 :=
  table_1D_betweenness false 0 [0, 10, 20] 0 2 3 rfl (by decide) (by norm_num)
    1 (by decide) (3 / 2) (by norm_num [grid_point]) (by norm_num [grid_point])

/-! ## Index safety -/

/-- On a table with at least two samples the clamped index is a natural number
`k` with `k + 2 ≤ n`, whatever the query. -/
theorem low_index_nat {T : Type} (t : table_1D T) (x : real) (hn : 2 ≤ t._n) :
    ∃ k : Nat, k + 2 ≤ t._n ∧ t.low_index x = (k : Int) := by
  have hb := clampi_bounds (floorr ((x - t._x_min) * t._x_step)) 0 ((t._n : Int) - 2)
    (by omega)
  refine ⟨(t.low_index x).toNat, ?_, ?_⟩
  · unfold table_1D.low_index
    omega
  · unfold table_1D.low_index
    omega

/-- C6: on every table that holds `n ≥ 2` samples and for every `x`, the clamped
floor index satisfies `0 ≤ low_index ≤ n-2`, the reads `_data[low_index]` and
`_data[low_index + 1]` are inside the buffer, and `get` returns a value. -/
theorem table_1D_index_safety {T : Type} [Scalar T] (t : table_1D T) (data : List T)
    (hd : t._data = some data) (hlen : data.length = t._n) (hn : 2 ≤ t._n) (x : real) :
    0 ≤ t.low_index x ∧ t.low_index x ≤ (t._n : Int) - 2 ∧
      t.low_index x + 1 ≤ (t._n : Int) - 1 ∧
      (deref t._data (t.low_index x)).isSome = true ∧
      (deref t._data (t.low_index x + 1)).isSome = true ∧
      (t.get x).isSome = true := by
  obtain ⟨k, hk, hlow⟩ := low_index_nat t x hn
  have h0 : deref (some data) (k : Int) = some data[k] := deref_some_nat data k (by omega)
  have h1 : deref (some data) ((k : Int) + 1) = some data[k + 1] := by
    have := deref_some_nat data (k + 1) (by omega)
    simpa using this
  refine ⟨by omega, by omega, by omega, ?_, ?_, ?_⟩
  · rw [hlow, hd, h0]
    rfl
  · rw [hlow, hd, h1]
    rfl
  · rw [get_eq_of_low_index t data x k hd (by omega) hlow]
    rfl

theorem table_1D_index_safety_witness :
    0 ≤ table_1D.low_index (⟨some [1, 2, 4], 3, 0, 1⟩ : table_1D real) 1000 ∧
      table_1D.low_index (⟨some [1, 2, 4], 3, 0, 1⟩ : table_1D real) 1000 ≤ ((3 : Nat) : Int) - 2 ∧
      table_1D.low_index (⟨some [1, 2, 4], 3, 0, 1⟩ : table_1D real) 1000 + 1
        ≤ ((3 : Nat) : Int) - 1 ∧
      (deref (some ([1, 2, 4] : List real))
        (table_1D.low_index (⟨some [1, 2, 4], 3, 0, 1⟩ : table_1D real) 1000)).isSome = true ∧
      (deref (some ([1, 2, 4] : List real))
        (table_1D.low_index (⟨some [1, 2, 4], 3, 0, 1⟩ : table_1D real) 1000 + 1)).isSome
          = true ∧
      (table_1D.get (⟨some [1, 2, 4], 3, 0, 1⟩ : table_1D real) 1000).isSome = true :=
  table_1D_index_safety ⟨some [1, 2, 4], 3, 0, 1⟩ [1, 2, 4] rfl rfl (by decide) 1000

/-! ## Copy-in round trip -/

/-- C7: for every array `A` of length `n` and every bounds, `create` returns a
table with element count `n` whose indexed access gives `A[i]` at every `i < n`,
on either backend.  (The array `A` is a value that `create` only reads.) -/
theorem table_1D_copy_in_round_trip {T : Type} (gpu_flag : Bool) (fill : T) (A : List T)
    (x_min x_max : real) (n : Nat) (hlen : A.length = n) :
    ∃ t, table_1D.create gpu_flag fill A x_min x_max n = some t ∧ t._n = n ∧
      ∀ (i : Nat) (hi : i < n), t.operator_call i = some A[i] := by
  subst hlen
  refine ⟨_, create_eq gpu_flag fill A x_min x_max, rfl, ?_⟩
  intro i hi
  exact deref_some_nat A i hi

theorem table_1D_copy_in_round_trip_witness :
    ([3, 1, 4] : List real).length = 3 ∧
    ∃ t, table_1D.create false 0 ([3, 1, 4] : List real) 5 5 3 = some t ∧ t._n = 3 ∧
      ∀ (i : Nat) (hi : i < 3), t.operator_call i = some ([3, 1, 4] : List real)[i] :=
  ⟨rfl, table_1D_copy_in_round_trip false 0 [3, 1, 4] 5 5 3 rfl⟩

/-! ## Infinite samples -/

theorem overflow_of_mem {fmax q : ℚ} (h1 : -fmax ≤ q) (h2 : q ≤ fmax) :
    ieee.overflow fmax q = ieee.fin q := by
  simp [ieee.overflow, not_lt.mpr h1, not_lt.mpr h2]

theorem overflow_not_nan (fmax q : ℚ) : (ieee.overflow fmax q).isNaN = false := by
  unfold ieee.overflow
  split_ifs <;> rfl

theorem signedInf_of_pos (fmax : ℚ) {q : ℚ} (h : 0 < q) :
    ieee.signedInf fmax q = ieee.pinf := by
  simp [ieee.signedInf, h]

theorem signedInf_neg_of_pos (fmax : ℚ) {q : ℚ} (h : 0 < q) :
    ieee.signedInf fmax (-q) = ieee.ninf := by
  have h1 : ¬ q < 0 := not_lt.mpr h.le
  simp [ieee.signedInf, h, h1]

theorem inRange_cases {fmax : ℚ} {v : ieee fmax} (h : v.inRange = true) :
    (∃ q, v = ieee.fin q ∧ -fmax ≤ q ∧ q ≤ fmax) ∨ v = ieee.pinf ∨ v = ieee.ninf := by
  cases v with
  | fin q =>
    left
    refine ⟨q, rfl, ?_⟩
    simpa [ieee.inRange] using h
  | pinf => exact Or.inr (Or.inl rfl)
  | ninf => exact Or.inr (Or.inr rfl)
  | nan => simp [ieee.inRange] at h

theorem ieee_eq_fin_of_isFinite {fmax : ℚ} {v : ieee fmax} (h : v.isFinite = true) :
    ∃ q, v = ieee.fin q := by
  cases v with
  | fin q => exact ⟨q, rfl⟩
  | pinf => simp [ieee.isFinite] at h
  | ninf => simp [ieee.isFinite] at h
  | nan => simp [ieee.isFinite] at h

/-- A weight in `[0, 1]` times a finite value of the format does not overflow. -/
theorem scaled_fin {fmax a p : ℚ} (hf : 1 ≤ fmax) (ha0 : 0 ≤ a) (ha1 : a ≤ 1)
    (hp1 : -fmax ≤ p) (hp2 : p ≤ fmax) :
    (Scalar.ofReal a * ieee.fin p : ieee fmax) = ieee.fin (a * p) ∧
      -fmax ≤ a * p ∧ a * p ≤ fmax := by
  have hb1 : -fmax ≤ a * p := by nlinarith
  have hb2 : a * p ≤ fmax := by nlinarith
  refine ⟨?_, hb1, hb2⟩
  show ieee.mul (ieee.overflow fmax a) (ieee.fin p) = ieee.fin (a * p)
  rw [overflow_of_mem (by linarith) (by linarith)]
  show ieee.overflow fmax (a * p) = ieee.fin (a * p)
  exact overflow_of_mem hb1 hb2

/-- A weight in `(0, 1]` times an infinity is the same infinity. -/
theorem scaled_inf (fmax : ℚ) {a : ℚ} (hf : 1 ≤ fmax) (ha0 : 0 < a) (ha1 : a ≤ 1) :
    (Scalar.ofReal a * ieee.pinf : ieee fmax) = ieee.pinf ∧
      (Scalar.ofReal a * ieee.ninf : ieee fmax) = ieee.ninf := by
  constructor
  · show ieee.mul (ieee.overflow fmax a) ieee.pinf = ieee.pinf
    rw [overflow_of_mem (by linarith) (by linarith)]
    exact signedInf_of_pos fmax ha0
  · show ieee.mul (ieee.overflow fmax a) ieee.ninf = ieee.ninf
    rw [overflow_of_mem (by linarith) (by linarith)]
    exact signedInf_neg_of_pos fmax ha0

theorem ieee_combo_finite_not_nan {fmax a b p q : ℚ} (hf : 1 ≤ fmax)
    (ha0 : 0 ≤ a) (ha1 : a ≤ 1) (hb0 : 0 ≤ b) (hb1 : b ≤ 1)
    (hp1 : -fmax ≤ p) (hp2 : p ≤ fmax) (hq1 : -fmax ≤ q) (hq2 : q ≤ fmax) :
    (Scalar.ofReal a * ieee.fin p + Scalar.ofReal b * ieee.fin q : ieee fmax).isNaN = false := by
  rw [(scaled_fin hf ha0 ha1 hp1 hp2).1, (scaled_fin hf hb0 hb1 hq1 hq2).1]
  exact overflow_not_nan fmax _

theorem ieee_combo_not_nan {fmax a b : ℚ} (hf : 1 ≤ fmax)
    (ha0 : 0 < a) (ha1 : a ≤ 1) (hb0 : 0 < b) (hb1 : b ≤ 1) (low high : ieee fmax)
    (hl : low.inRange = true) (hh : high.inRange = true)
    (h1 : ¬ (low = ieee.pinf ∧ high = ieee.ninf))
    (h2 : ¬ (low = ieee.ninf ∧ high = ieee.pinf)) :
    (Scalar.ofReal a * low + Scalar.ofReal b * high : ieee fmax).isNaN = false := by
  obtain ⟨sa1, sa2⟩ := scaled_inf fmax hf ha0 ha1
  obtain ⟨sb1, sb2⟩ := scaled_inf fmax hf hb0 hb1
  rcases inRange_cases hl with ⟨p, rfl, hp1, hp2⟩ | rfl | rfl <;>
    rcases inRange_cases hh with ⟨q, rfl, hq1, hq2⟩ | rfl | rfl
  · exact ieee_combo_finite_not_nan hf ha0.le ha1 hb0.le hb1 hp1 hp2 hq1 hq2
  · rw [(scaled_fin hf ha0.le ha1 hp1 hp2).1, sb1]; rfl
  · rw [(scaled_fin hf ha0.le ha1 hp1 hp2).1, sb2]; rfl
  · rw [(scaled_fin hf hb0.le hb1 hq1 hq2).1, sa1]; rfl
  · rw [sa1, sb1]; rfl
  · exact absurd ⟨rfl, rfl⟩ h1
  · rw [(scaled_fin hf hb0.le hb1 hq1 hq2).1, sa2]; rfl
  · exact absurd ⟨rfl, rfl⟩ h2
  · rw [sa2, sb2]; rfl

/-- For a query inside the axis the offset `x_index - low_index` lies in `[0, 1]`. -/
theorem frac_bounds_inside {T : Type} (t : table_1D T) (x : real) (k : Nat)
    (hlow : t.low_index x = (k : Int))
    (h0 : 0 ≤ t.x_index x) (h1 : t.x_index x ≤ (t._n : real) - 1) :
    0 ≤ t.x_index x - k ∧ t.x_index x - k ≤ 1 := by
  have hF0 : 0 ≤ floorr (t.x_index x) := Int.floor_nonneg.mpr h0
  have hFle : ((floorr (t.x_index x) : Int) : real) ≤ t.x_index x := Int.floor_le _
  have hFlt : t.x_index x < ((floorr (t.x_index x) : Int) : real) + 1 :=
    Int.lt_floor_add_one _
  have hlow2 : min (max (floorr (t.x_index x)) 0) ((t._n : Int) - 2) = (k : Int) := hlow
  rw [max_eq_left hF0] at hlow2
  rcases le_total (floorr (t.x_index x)) ((t._n : Int) - 2) with h | h
  · rw [min_eq_left h] at hlow2
    have e : ((floorr (t.x_index x) : Int) : real) = (k : real) := by
      rw [hlow2]
      simp
    rw [e] at hFle hFlt
    constructor <;> linarith
  · rw [min_eq_right h] at hlow2
    have e : (k : real) = (t._n : real) - 2 := by
      have : ((k : Int) : real) = (((t._n : Int) - 2 : Int) : real) := by rw [hlow2]
      simpa using this
    have hFk : (k : real) ≤ ((floorr (t.x_index x) : Int) : real) := by
      have : (k : Int) ≤ floorr (t.x_index x) := by omega
      exact_mod_cast this
    rw [e] at hFk ⊢
    constructor <;> linarith

/-- C5, as stated, fails: in the binary32 format, on the table built from the
samples `[0, +inf]` over `[0, 1]`, the finite query `x = 0` falls on the first
grid point (`f = 0`) and `get` returns NaN, from the product `0 * inf`; and on
the table built from `[+inf, -inf]` the query `x = 1/2` inside the cell returns
NaN, from the sum `inf + (-inf)`. -/
theorem table_1D_nan_counterexample :
    (∃ t, table_1D.create false (ieee.fin 0 : ieee binary32_max)
        [ieee.fin 0, ieee.pinf] 0 1 2 = some t ∧ t.get 0 = some ieee.nan) ∧
    (∃ t, table_1D.create false (ieee.fin 0 : ieee binary32_max)
        [ieee.pinf, ieee.ninf] 0 1 2 = some t ∧ t.get (1 / 2) = some ieee.nan) := by
  have hmax : (1 : ℚ) ≤ binary32_max := by norm_num [binary32_max]
  refine ⟨?_, ?_⟩
  · have hc : table_1D.create false (ieee.fin 0 : ieee binary32_max)
        [ieee.fin 0, ieee.pinf] 0 1 2 = some ⟨some [ieee.fin 0, ieee.pinf], 2, 0, 1⟩ := by
      rw [create_fields false (ieee.fin 0 : ieee binary32_max) [ieee.fin 0, ieee.pinf] 0 1 2
        rfl (by decide)]
      norm_num
    refine ⟨_, hc, ?_⟩
    rw [get_eq_of_low_index ⟨some [ieee.fin 0, ieee.pinf], 2, 0, 1⟩ [ieee.fin 0, ieee.pinf] 0 0
      rfl (by decide) (low_index_of_mem _ _ 0 (by decide) (by simp [table_1D.x_index])
        (by simp [table_1D.x_index]))]
    have e : table_1D.x_index
        (⟨some [ieee.fin 0, ieee.pinf], 2, 0, 1⟩ : table_1D (ieee binary32_max)) 0
        - ((0 : Nat) : real) = 0 := by
      simp [table_1D.x_index]
    simp only [e]
    have t1 : (Scalar.ofReal (1 - 0) * ieee.fin 0 : ieee binary32_max)
        = ieee.fin ((1 - 0) * 0) :=
      (scaled_fin hmax (by norm_num) (by norm_num) (by linarith) (by linarith)).1
    have o0 : ieee.overflow binary32_max 0 = ieee.fin 0 :=
      overflow_of_mem (by linarith) (by linarith)
    have t2 : (Scalar.ofReal 0 * ieee.pinf : ieee binary32_max) = ieee.nan := by
      show ieee.mul (ieee.overflow binary32_max 0) ieee.pinf = ieee.nan
      rw [o0]
      simp [ieee.mul, ieee.signedInf]
    show some ((Scalar.ofReal (1 - 0) * ieee.fin 0 + Scalar.ofReal 0 * ieee.pinf
      : ieee binary32_max)) = some ieee.nan
    rw [t1, t2]
    rfl
  · have hc : table_1D.create false (ieee.fin 0 : ieee binary32_max)
        [ieee.pinf, ieee.ninf] 0 1 2 = some ⟨some [ieee.pinf, ieee.ninf], 2, 0, 1⟩ := by
      rw [create_fields false (ieee.fin 0 : ieee binary32_max) [ieee.pinf, ieee.ninf] 0 1 2
        rfl (by decide)]
      norm_num
    refine ⟨_, hc, ?_⟩
    rw [get_eq_of_low_index ⟨some [ieee.pinf, ieee.ninf], 2, 0, 1⟩ [ieee.pinf, ieee.ninf]
      (1 / 2) 0 rfl (by decide) (low_index_of_mem _ _ 0 (by decide)
        (by norm_num [table_1D.x_index]) (by norm_num [table_1D.x_index]))]
    have e : table_1D.x_index
        (⟨some [ieee.pinf, ieee.ninf], 2, 0, 1⟩ : table_1D (ieee binary32_max)) (1 / 2)
        - ((0 : Nat) : real) = 1 / 2 := by
      norm_num [table_1D.x_index]
    simp only [e]
    have hh : (1 : real) - 1 / 2 = 1 / 2 := by norm_num
    rw [hh]
    have s := scaled_inf binary32_max hmax (by norm_num : (0 : ℚ) < 1 / 2) (by norm_num)
    show some ((Scalar.ofReal (1 / 2) * ieee.pinf + Scalar.ofReal (1 / 2) * ieee.ninf
      : ieee binary32_max)) = some ieee.nan
    rw [s.1, s.2]
    rfl

/-- Outside the axis a finite product overflows: in the binary32 format, on the
table built from the samples `[0, 2^127]` over `[0, 1]`, the query `x = 2` has
`f = 2` and `get` returns `+inf`. -/
theorem table_1D_get_overflow_example :
    ∃ t, table_1D.create false (ieee.fin 0 : ieee binary32_max)
        [ieee.fin 0, ieee.fin (2 ^ 127)] 0 1 2 = some t ∧ t.get 2 = some ieee.pinf := by
  have hc : table_1D.create false (ieee.fin 0 : ieee binary32_max)
      [ieee.fin 0, ieee.fin (2 ^ 127)] 0 1 2
      = some ⟨some [ieee.fin 0, ieee.fin (2 ^ 127)], 2, 0, 1⟩ := by
    rw [create_fields false (ieee.fin 0 : ieee binary32_max) [ieee.fin 0, ieee.fin (2 ^ 127)]
      0 1 2 rfl (by decide)]
    norm_num
  refine ⟨_, hc, ?_⟩
  rw [get_eq_of_low_index ⟨some [ieee.fin 0, ieee.fin (2 ^ 127)], 2, 0, 1⟩
    [ieee.fin 0, ieee.fin (2 ^ 127)] 2 0 rfl (by decide)
    (low_index_of_ge _ _ 0 rfl (by norm_num [table_1D.x_index]))]
  have e : table_1D.x_index
      (⟨some [ieee.fin 0, ieee.fin (2 ^ 127)], 2, 0, 1⟩ : table_1D (ieee binary32_max)) 2
      - ((0 : Nat) : real) = 2 := by
    norm_num [table_1D.x_index]
  simp only [e]
  show some (ieee.add (ieee.mul (ieee.overflow binary32_max (1 - 2)) (ieee.fin 0))
    (ieee.mul (ieee.overflow binary32_max 2) (ieee.fin (2 ^ 127)))) = some ieee.pinf
  rw [overflow_of_mem (by norm_num [binary32_max]) (by norm_num [binary32_max]),
    overflow_of_mem (by norm_num [binary32_max]) (by norm_num [binary32_max])]
  norm_num [ieee.mul, ieee.add, ieee.overflow, binary32_max]

/-- Outside the axis finite samples can give NaN: in the binary32 format, on the
table built from the samples `[fmax, fmax]` over `[0, 1]`, the query `x = 4` has
`f = 4`, the two products overflow to `-inf` and to `+inf`, and `get` returns NaN. -/
theorem table_1D_get_overflow_nan_example :
    ∃ t, table_1D.create false (ieee.fin 0 : ieee binary32_max)
        [ieee.fin binary32_max, ieee.fin binary32_max] 0 1 2 = some t ∧
      t.get 4 = some ieee.nan := by
  have hc : table_1D.create false (ieee.fin 0 : ieee binary32_max)
      [ieee.fin binary32_max, ieee.fin binary32_max] 0 1 2
      = some ⟨some [ieee.fin binary32_max, ieee.fin binary32_max], 2, 0, 1⟩ := by
    rw [create_fields false (ieee.fin 0 : ieee binary32_max)
      [ieee.fin binary32_max, ieee.fin binary32_max] 0 1 2 rfl (by decide)]
    norm_num
  refine ⟨_, hc, ?_⟩
  rw [get_eq_of_low_index ⟨some [ieee.fin binary32_max, ieee.fin binary32_max], 2, 0, 1⟩
    [ieee.fin binary32_max, ieee.fin binary32_max] 4 0 rfl (by decide)
    (low_index_of_ge _ _ 0 rfl (by norm_num [table_1D.x_index]))]
  have e : table_1D.x_index (⟨some [ieee.fin binary32_max, ieee.fin binary32_max], 2, 0, 1⟩
      : table_1D (ieee binary32_max)) 4 - ((0 : Nat) : real) = 4 := by
    norm_num [table_1D.x_index]
  simp only [e]
  show some (ieee.add
    (ieee.mul (ieee.overflow binary32_max (1 - 4)) (ieee.fin binary32_max))
    (ieee.mul (ieee.overflow binary32_max 4) (ieee.fin binary32_max))) = some ieee.nan
  rw [overflow_of_mem (by norm_num [binary32_max]) (by norm_num [binary32_max]),
    overflow_of_mem (by norm_num [binary32_max]) (by norm_num [binary32_max])]
  norm_num [ieee.mul, ieee.add, ieee.overflow, binary32_max]

/-- C5, amended: in a floating-point format with largest finite value `fmax ≥ 1`,
for `n ≥ 2`, `x_min < x_max` with the span `x_max - x_min`, the inverse step
`(n-1)/(x_max - x_min)` and `n - 1` at most `fmax`, samples that are values of
the format (finite within range, or infinite, not NaN) and every `x` in
`[x_min, x_max]`: every value of the index arithmetic of `get` stays within the
range of the format, and `get(x)` computed as `(1-f)*low + f*high` is not NaN
whenever the two samples it reads are finite, and whenever `x` lies strictly
between two consecutive grid points (`0 < f < 1`) and the two samples there are
not infinities of opposite sign. -/
theorem table_1D_nan_free_interior (fmax : ℚ) (hfmax : 1 ≤ fmax) (gpu_flag : Bool)
    (fill : ieee fmax) (data : List (ieee fmax))
    (x_min x_max : real) (n : Nat) (hlen : data.length = n) (hn : 2 ≤ n)
    (hx : x_min < x_max) (hspan : x_max - x_min ≤ fmax)
    (hstep : ((n : real) - 1) / (x_max - x_min) ≤ fmax) (hcount : (n : real) - 1 ≤ fmax)
    (hrange : ∀ v ∈ data, v.inRange = true) (x : real) (hx1 : x_min ≤ x) (hx2 : x ≤ x_max) :
    ∃ t, table_1D.create gpu_flag fill data x_min x_max n = some t ∧
      ∃ v, t.get x = some v ∧
        (0 ≤ x - t._x_min ∧ x - t._x_min ≤ fmax ∧ 0 ≤ t._x_step ∧ t._x_step ≤ fmax ∧
          0 ≤ t.x_index x ∧ t.x_index x ≤ fmax ∧
          0 ≤ t.x_index x - (t.low_index x : real) ∧
          t.x_index x - (t.low_index x : real) ≤ 1) ∧
        (∀ (k : Nat) (hk : k + 2 ≤ n), t.low_index x = (k : Int) →
          data[k].isFinite = true → data[k + 1].isFinite = true → v.isNaN = false) ∧
        (∀ (i : Nat) (hi : i + 2 ≤ n),
          grid_point x_min x_max n i < x → x < grid_point x_min x_max n (i + 1) →
          ¬ (data[i] = ieee.pinf ∧ data[i + 1] = ieee.ninf) →
          ¬ (data[i] = ieee.ninf ∧ data[i + 1] = ieee.pinf) → v.isNaN = false) := by
  subst hlen
  obtain ⟨k, hk, hlow⟩ := low_index_nat (⟨some data, data.length, x_min,
    ((data.length : real) - 1) / (x_max - x_min)⟩ : table_1D (ieee fmax)) x hn
  have hk1 : k + 1 < data.length := by
    have : k + 2 ≤ data.length := hk
    omega
  have hpos := x_step_pos (⟨some data, data.length, x_min,
    ((data.length : real) - 1) / (x_max - x_min)⟩ : table_1D (ieee fmax)) x_max hn hx rfl
  have hmax := x_index_x_max (⟨some data, data.length, x_min,
    ((data.length : real) - 1) / (x_max - x_min)⟩ : table_1D (ieee fmax)) x_max hx rfl
  have h0 : 0 ≤ table_1D.x_index (⟨some data, data.length, x_min,
      ((data.length : real) - 1) / (x_max - x_min)⟩ : table_1D (ieee fmax)) x := by
    unfold table_1D.x_index
    exact mul_nonneg (by simpa using hx1) hpos.le
  have h1 : table_1D.x_index (⟨some data, data.length, x_min,
      ((data.length : real) - 1) / (x_max - x_min)⟩ : table_1D (ieee fmax)) x
      ≤ (data.length : real) - 1 := by
    have hle : table_1D.x_index (⟨some data, data.length, x_min,
        ((data.length : real) - 1) / (x_max - x_min)⟩ : table_1D (ieee fmax)) x
        ≤ table_1D.x_index (⟨some data, data.length, x_min,
        ((data.length : real) - 1) / (x_max - x_min)⟩ : table_1D (ieee fmax)) x_max := by
      unfold table_1D.x_index
      exact mul_le_mul_of_nonneg_right (by simpa using hx2) hpos.le
    exact le_trans hle (le_of_eq hmax)
  obtain ⟨hb0, hb1⟩ := frac_bounds_inside _ x k hlow h0 h1
  refine ⟨_, create_fields gpu_flag fill data x_min x_max _ rfl (by omega), _,
    get_eq_of_low_index _ data x k rfl hk1 hlow, ?_, ?_, ?_⟩
  · refine ⟨?_, ?_, hpos.le, hstep, h0, le_trans h1 hcount, ?_, ?_⟩
    · show 0 ≤ x - x_min
      linarith
    · show x - x_min ≤ fmax
      linarith
    · rw [hlow]
      simpa using hb0
    · rw [hlow]
      simpa using hb1
  · intro k2 hk2 hlow2 hf0 hf1
    have e : k2 = k := by
      rw [hlow] at hlow2
      exact_mod_cast hlow2.symm
    subst e
    obtain ⟨p, hp⟩ := ieee_eq_fin_of_isFinite hf0
    obtain ⟨q, hq⟩ := ieee_eq_fin_of_isFinite hf1
    have hpr := hrange _ (List.getElem_mem (by omega : k2 < data.length))
    have hqr := hrange _ (List.getElem_mem hk1)
    rw [hp] at hpr
    rw [hq] at hqr
    simp only [ieee.inRange, decide_eq_true_eq] at hpr hqr
    rw [hp, hq]
    exact ieee_combo_finite_not_nan hfmax (by linarith) (by linarith) hb0 hb1
      hpr.1 hpr.2 hqr.1 hqr.2
  · intro i hi h1 h2 ho1 ho2
    have hb := grid_point_index_bounds (⟨some data, data.length, x_min,
      ((data.length : real) - 1) / (x_max - x_min)⟩ : table_1D (ieee fmax)) x_max hn hx rfl x i
    have hf0 := hb.2.1.mp h1
    have hf1 := hb.2.2.2.mp h2
    have hlow2 := low_index_of_mem (⟨some data, data.length, x_min,
      ((data.length : real) - 1) / (x_max - x_min)⟩ : table_1D (ieee fmax)) x i hi hf0.le hf1
    have e : i = k := by
      rw [hlow] at hlow2
      exact_mod_cast hlow2.symm
    subst e
    exact ieee_combo_not_nan hfmax (by linarith) (by linarith) (by linarith) (by linarith) _ _
      (hrange _ (List.getElem_mem _)) (hrange _ (List.getElem_mem _)) ho1 ho2

theorem table_1D_nan_free_interior_witness :
    ∃ t, table_1D.create false (ieee.fin 0 : ieee binary32_max)
        [ieee.pinf, ieee.pinf, ieee.fin 3] 0 2 3 = some t ∧
      ∃ v, t.get (1 / 2) = some v ∧ v.isNaN = false := by
  obtain ⟨t, ht, v, hv, _, _, hb⟩ := table_1D_nan_free_interior binary32_max
    (by norm_num [binary32_max]) false (ieee.fin 0)
    [ieee.pinf, ieee.pinf, ieee.fin 3] 0 2 3 rfl (by decide) (by norm_num)
    (by norm_num [binary32_max]) (by norm_num [binary32_max]) (by norm_num [binary32_max])
    (by
      intro v hv
      simp only [List.mem_cons, List.mem_singleton, List.not_mem_nil, or_false] at hv
      rcases hv with h | h | h <;> subst h
      · rfl
      · rfl
      · simp only [ieee.inRange, decide_eq_true_eq]
        norm_num [binary32_max])
    (1 / 2) (by norm_num) (by norm_num)
  exact ⟨t, ht, v, hv, hb 0 (by decide) (by norm_num [grid_point]) (by norm_num [grid_point])
    (by simp) (by simp)⟩

/-! ## The barrier test of `material` -/

/-- C8: for every material and every kinetic energy `E`, `can_reach_vacuum(E)`
is true if and only if `E ≥ barrier`; `can_reach_vacuum(barrier)` is true and
`can_reach_vacuum(barrier - ε)` is false for every `ε > 0`. -/
theorem material_can_reach_vacuum_iff {S : Type} (m : material S) (E : real) :
    (m.can_reach_vacuum E = true ↔ E ≥ m.barrier) ∧
      m.can_reach_vacuum m.barrier = true ∧
      ∀ ε : real, 0 < ε → m.can_reach_vacuum (m.barrier - ε) = false := by
  refine ⟨?_, ?_, ?_⟩
  · simp [material.can_reach_vacuum]
  · simp [material.can_reach_vacuum]
  · intro ε hε
    simp [material.can_reach_vacuum, hε]

theorem material_can_reach_vacuum_iff_witness :
    (material.can_reach_vacuum (⟨(), 5⟩ : material Unit) 7 = true ↔ (7 : real) ≥ 5) ∧
      material.can_reach_vacuum (⟨(), 5⟩ : material Unit) 5 = true ∧
      material.can_reach_vacuum (⟨(), 5⟩ : material Unit) (5 - 1) = false :=
  ⟨(material_can_reach_vacuum_iff (⟨(), 5⟩ : material Unit) 7).1,
    (material_can_reach_vacuum_iff (⟨(), 5⟩ : material Unit) 7).2.1,
    (material_can_reach_vacuum_iff (⟨(), 5⟩ : material Unit) 7).2.2 1 (by norm_num)⟩

/-! ## The barrier of a constructed `material` -/

/-- C9, as stated, fails: with the elementary charge `ec = 1.602176634e-19` and
a legacy parameter object whose barrier energy is `-ec` (that is `-1` eV), the
constructed material has the barrier `-1`, which is negative. -/
theorem material_barrier_counterexample :
    (0 : real) < 1602176634 / 10 ^ 28 ∧
    (material.construct (1602176634 / 10 ^ 28) (fun _ => ())
      { barrier := -(1602176634 / 10 ^ 28), ionization_energy := fun _ _ => 0,
        outer_shell_ionization_energy := fun _ => 0 }).barrier = -1 ∧
    ¬ (0 ≤ (material.construct (1602176634 / 10 ^ 28) (fun _ => ())
      { barrier := -(1602176634 / 10 ^ 28), ionization_energy := fun _ _ => 0,
        outer_shell_ionization_energy := fun _ => 0 }).barrier) := by
  refine ⟨by norm_num, ?_, ?_⟩ <;> norm_num [material.construct]

/-- C9, amended: for every legacy material-parameter object and every
elementary charge `ec > 0`, the barrier of the constructed material is the legacy
barrier energy divided by `ec`, and it is non-negative exactly when the legacy
barrier energy is non-negative. -/
theorem material_barrier_nonneg_iff {S : Type} (ec : real) (hec : 0 < ec)
    (create : material_legacy_thomas → S) (mat_legacy : material_legacy_thomas) :
    (material.construct ec create mat_legacy).barrier = mat_legacy.barrier / ec ∧
      (0 ≤ (material.construct ec create mat_legacy).barrier ↔ 0 ≤ mat_legacy.barrier) := by
  refine ⟨rfl, ?_⟩
  show 0 ≤ mat_legacy.barrier / ec ↔ 0 ≤ mat_legacy.barrier
  constructor
  · intro h
    have := mul_nonneg h hec.le
    rwa [div_mul_cancel₀ _ (ne_of_gt hec)] at this
  · intro h
    exact div_nonneg h hec.le

theorem material_barrier_nonneg_iff_witness :
    (0 : real) < 2 ∧
    (material.construct 2 (fun _ => ())
      { barrier := 6, ionization_energy := fun _ _ => 0,
        outer_shell_ionization_energy := fun _ => 0 }).barrier = 6 / 2 ∧
    (0 ≤ (material.construct 2 (fun _ => ())
      { barrier := 6, ionization_energy := fun _ _ => 0,
        outer_shell_ionization_energy := fun _ => 0 }).barrier ↔ (0 : real) ≤ 6) :=
  ⟨by norm_num, material_barrier_nonneg_iff 2 (by norm_num) (fun _ => ())
    { barrier := 6, ionization_energy := fun _ _ => 0,
      outer_shell_ionization_energy := fun _ => 0 }⟩

/-! ## Loops that fill a flat buffer -/

/-- The loop `for x in [0, c): v[base + x] = f x` keeps the length, writes `f x`
at `base + x` and leaves every position outside `[base, base + c)` as it was. -/
theorem row_loop_spec {α : Type} (f : Nat → α) (base : Nat) :
    ∀ (c : Nat) (v : List α),
      ((List.range c).foldl (fun v x => v.set (base + x) (f x)) v).length = v.length ∧
      (∀ x, x < c → base + x < v.length →
        ((List.range c).foldl (fun v x => v.set (base + x) (f x)) v)[base + x]? = some (f x)) ∧
      (∀ j, (j < base ∨ base + c ≤ j) →
        ((List.range c).foldl (fun v x => v.set (base + x) (f x)) v)[j]? = v[j]?) := by
  intro c
  induction c with
  | zero => intro v; simp
  | succ c ih =>
    intro v
    obtain ⟨hl, hw, hu⟩ := ih v
    rw [List.range_succ, List.foldl_append]
    simp only [List.foldl_cons, List.foldl_nil]
    refine ⟨by rw [List.length_set, hl], ?_, ?_⟩
    · intro x hx hb
      by_cases hxc : x = c
      · subst hxc
        exact List.getElem?_set_self (by rw [hl]; exact hb)
      · rw [List.getElem?_set_ne (by omega)]
        exact hw x (by omega) hb
    · intro j hj
      rw [List.getElem?_set_ne (by omega)]
      exact hu j (by omega)

/-- The nested loops `for y in [0, r): for x in [0, K): v[y*K + x] = f x y` keep
the length and leave `f x y` at the flat offset `y*K + x` of every cell. -/
theorem grid_loop_spec {α : Type} (K : Nat) (f : Nat → Nat → α) :
    ∀ (r : Nat) (v : List α),
      ((List.range r).foldl
        (fun v y => (List.range K).foldl (fun v x => v.set (y * K + x) (f x y)) v) v).length
          = v.length ∧
      (∀ y x, y < r → x < K → y * K + x < v.length →
        ((List.range r).foldl
          (fun v y => (List.range K).foldl (fun v x => v.set (y * K + x) (f x y)) v) v)[y * K + x]?
            = some (f x y)) := by
  intro r
  induction r with
  | zero => intro v; simp
  | succ r ih =>
    intro v
    obtain ⟨hl, hw⟩ := ih v
    rw [List.range_succ, List.foldl_append]
    simp only [List.foldl_cons, List.foldl_nil]
    obtain ⟨hl2, hw2, hu2⟩ := row_loop_spec (fun x => f x r) (r * K) K
      ((List.range r).foldl
        (fun v y => (List.range K).foldl (fun v x => v.set (y * K + x) (f x y)) v) v)
    refine ⟨by rw [hl2, hl], ?_⟩
    intro y x hy hx hb
    by_cases hyr : y = r
    · subst hyr
      exact hw2 x hx (by rw [hl]; exact hb)
    · have hlt : y < r := by omega
      have h1 : (y + 1) * K ≤ r * K := Nat.mul_le_mul_right K hlt
      rw [Nat.succ_mul] at h1
      rw [hu2 (y * K + x) (Or.inl (by omega))]
      exact hw y x hlt hx hb

theorem cell_offset_lt {K P x y : Nat} (hx : x < K) (hy : y < P) : y * K + x < K * P := by
  have h1 : (y + 1) * K ≤ P * K := Nat.mul_le_mul_right K hy
  rw [Nat.succ_mul, Nat.mul_comm P K] at h1
  omega

/-! ## The ionisation table -/

open scatter scatter.electron_ionisation

theorem ionisation_vector_length (g : ionisation_grid) (mat : material_legacy_thomas) :
    (ionisation_vector g mat).length = g.K_cnt * g.P_cnt := by
  have h := (grid_loop_spec g.K_cnt
    (fun x y => binding g mat (__logspace_K_at g x) (__linspace_P_at g y))
    g.P_cnt (List.replicate (g.K_cnt * g.P_cnt) 0)).1
  simpa [ionisation_vector, fill_row] using h

/-- The cell `(x, y)` of the buffer holds the value of the loop body at the
energy of column `x` and the probability of row `y`, at the offset `y*K_cnt + x`. -/
theorem ionisation_vector_cell (g : ionisation_grid) (mat : material_legacy_thomas)
    (x y : Nat) (hx : x < g.K_cnt) (hy : y < g.P_cnt) :
    (ionisation_vector g mat)[y * g.K_cnt + x]?
      = some (binding g mat (__logspace_K_at g x) (__linspace_P_at g y)) := by
  have h := (grid_loop_spec g.K_cnt
    (fun x y => binding g mat (__logspace_K_at g x) (__linspace_P_at g y))
    g.P_cnt (List.replicate (g.K_cnt * g.P_cnt) 0)).2 y x hy hx
    (by rw [List.length_replicate]; exact cell_offset_lt hx hy)
  exact h

/-- The three outcomes of the loop body. -/
theorem binding_cases (g : ionisation_grid) (mat : material_legacy_thomas) (omega0 P : real) :
    (100 < omega0 → 50 ≤ mat.ionization_energy ((omega0 + 10) * g.ec) P / g.ec →
      binding g mat omega0 P = mat.ionization_energy ((omega0 + 10) * g.ec) P / g.ec) ∧
    (¬ (100 < omega0 ∧ 50 ≤ mat.ionization_energy ((omega0 + 10) * g.ec) P / g.ec) →
      0 ≤ mat.outer_shell_ionization_energy (omega0 * g.ec) / g.ec →
      binding g mat omega0 P = mat.outer_shell_ionization_energy (omega0 * g.ec) / g.ec) ∧
    (¬ (100 < omega0 ∧ 50 ≤ mat.ionization_energy ((omega0 + 10) * g.ec) P / g.ec) →
      mat.outer_shell_ionization_energy (omega0 * g.ec) / g.ec < 0 →
      binding g mat omega0 P = -1) := by
  refine ⟨?_, ?_, ?_⟩
  · intro h1 h2
    have h3 : ¬ mat.ionization_energy ((omega0 + 10) * g.ec) P / g.ec < 50 := not_lt.mpr h2
    have h4 : ¬ mat.ionization_energy ((omega0 + 10) * g.ec) P / g.ec < 0 := by
      intro h
      linarith
    simp [binding, h1, h3, h4]
  · intro h1 h2
    have h3 : ¬ mat.outer_shell_ionization_energy (omega0 * g.ec) / g.ec < 0 := not_lt.mpr h2
    by_cases hg : 100 < omega0
    · have h4 : mat.ionization_energy ((omega0 + 10) * g.ec) P / g.ec < 50 := by
        by_contra hc
        exact h1 ⟨hg, not_lt.mp hc⟩
      simp [binding, hg, h3, h4]
    · simp [binding, hg, h3]
  · intro h1 h2
    by_cases hg : 100 < omega0
    · have h4 : mat.ionization_energy ((omega0 + 10) * g.ec) P / g.ec < 50 := by
        by_contra hc
        exact h1 ⟨hg, not_lt.mp hc⟩
      simp [binding, hg, h2, h4]
    · simp [binding, hg, h2]

/-- C10, as stated, fails: on the grid of 50 eV and 200 eV, with a primary model
that answers 60 eV (valid, and above the floor of 50 eV) and a secondary model
that answers 5 eV, the cell `(0, 0)` of energy 50 eV stores the secondary
answer 5 and not the primary answer 60. -/
theorem electron_ionisation_two_tier_counterexample :
    __logspace_K_at two_column_grid 0 = 50 ∧ __linspace_P_at two_column_grid 0 = 0 ∧
    flat_material.ionization_energy (50 * two_column_grid.ec) 0 / two_column_grid.ec = 60 ∧
    (50 : real) ≤ 60 ∧
    (ionisation_vector two_column_grid flat_material)[0 * two_column_grid.K_cnt + 0]?
      = some 5 := by
  have hK : __logspace_K_at two_column_grid 0 = 50 := by
    norm_num [__logspace_K_at, two_column_grid]
  have hP : __linspace_P_at two_column_grid 0 = 0 := by
    norm_num [__linspace_P_at, two_column_grid]
  refine ⟨hK, hP, ?_, by norm_num, ?_⟩
  · norm_num [flat_material, two_column_grid]
  · rw [ionisation_vector_cell two_column_grid flat_material 0 0 (by decide) (by decide),
      hK, hP]
    norm_num [binding, flat_material, two_column_grid]

/-- C10, amended: for every grid cell `(x, y)` with energy `omega0 = K_at(x)` and
probability `P = P_at(y)`, the value stored at offset `y*K_cnt + x` is the primary
model's response `ionization_energy((omega0 + 10 eV)*ec, P)/ec` whenever
`omega0 > 100` eV and that response is at least 50 eV; otherwise it is the
secondary model's response `outer_shell_ionization_energy(omega0*ec)/ec`
whenever that is non-negative; otherwise it is the sentinel `-1`. -/
theorem electron_ionisation_two_tier (g : ionisation_grid) (mat : material_legacy_thomas)
    (x y : Nat) (hx : x < g.K_cnt) (hy : y < g.P_cnt) :
    ∃ stored, (ionisation_vector g mat)[y * g.K_cnt + x]? = some stored ∧
      (100 < __logspace_K_at g x →
        50 ≤ mat.ionization_energy ((__logspace_K_at g x + 10) * g.ec) (__linspace_P_at g y)
          / g.ec →
        stored = mat.ionization_energy ((__logspace_K_at g x + 10) * g.ec)
          (__linspace_P_at g y) / g.ec) ∧
      (¬ (100 < __logspace_K_at g x ∧
          50 ≤ mat.ionization_energy ((__logspace_K_at g x + 10) * g.ec)
            (__linspace_P_at g y) / g.ec) →
        0 ≤ mat.outer_shell_ionization_energy (__logspace_K_at g x * g.ec) / g.ec →
        stored = mat.outer_shell_ionization_energy (__logspace_K_at g x * g.ec) / g.ec) ∧
      (¬ (100 < __logspace_K_at g x ∧
          50 ≤ mat.ionization_energy ((__logspace_K_at g x + 10) * g.ec)
            (__linspace_P_at g y) / g.ec) →
        mat.outer_shell_ionization_energy (__logspace_K_at g x * g.ec) / g.ec < 0 →
        stored = -1) :=
  ⟨_, ionisation_vector_cell g mat x y hx hy,
    binding_cases g mat (__logspace_K_at g x) (__linspace_P_at g y)⟩

theorem electron_ionisation_two_tier_witness :
    ∃ stored, (ionisation_vector two_column_grid flat_material)[1 * two_column_grid.K_cnt + 1]?
        = some stored ∧ stored = 60 := by
  obtain ⟨stored, hs, h1, _, _⟩ := electron_ionisation_two_tier two_column_grid flat_material
    1 1 (by decide) (by decide)
  have hK : __logspace_K_at two_column_grid 1 = 200 := by
    norm_num [__logspace_K_at, two_column_grid]
  refine ⟨stored, hs, ?_⟩
  rw [h1 (by rw [hK]; norm_num) (by norm_num [flat_material, two_column_grid])]
  norm_num [flat_material, two_column_grid]

/-! ## The sentinel of the ionisation table -/

/-- The value of the loop body is the sentinel `-1` or non-negative, and it is
negative exactly when neither model gave a usable response. -/
theorem binding_sentinel (g : ionisation_grid) (mat : material_legacy_thomas) (omega0 P : real) :
    (binding g mat omega0 P = -1 ∨ 0 ≤ binding g mat omega0 P) ∧
    (binding g mat omega0 P < 0 ↔
      ¬ (100 < omega0 ∧ 50 ≤ mat.ionization_energy ((omega0 + 10) * g.ec) P / g.ec) ∧
      mat.outer_shell_ionization_energy (omega0 * g.ec) / g.ec < 0) := by
  obtain ⟨h1, h2, h3⟩ := binding_cases g mat omega0 P
  by_cases hp : 100 < omega0 ∧ 50 ≤ mat.ionization_energy ((omega0 + 10) * g.ec) P / g.ec
  · have e := h1 hp.1 hp.2
    have hpos : 0 ≤ binding g mat omega0 P := by rw [e]; linarith [hp.2]
    refine ⟨Or.inr hpos, ?_⟩
    constructor
    · intro h
      linarith
    · intro h
      exact absurd hp h.1
  · by_cases hs : 0 ≤ mat.outer_shell_ionization_energy (omega0 * g.ec) / g.ec
    · have e := h2 hp hs
      have hpos : 0 ≤ binding g mat omega0 P := by rw [e]; exact hs
      refine ⟨Or.inr hpos, ?_⟩
      constructor
      · intro h
        linarith
      · intro h
        linarith [h.2]
    · push_neg at hs
      have e := h3 hp hs
      refine ⟨Or.inl e, ?_⟩
      constructor
      · intro _
        exact ⟨hp, hs⟩
      · intro _
        rw [e]
        norm_num

/-- Every element of the buffer is the sentinel or non-negative. -/
theorem ionisation_vector_all (g : ionisation_grid) (mat : material_legacy_thomas) :
    ∀ v ∈ ionisation_vector g mat, v = -1 ∨ 0 ≤ v := by
  intro v hv
  obtain ⟨j, hj, rfl⟩ := List.getElem_of_mem hv
  rw [ionisation_vector_length] at hj
  have hK : 0 < g.K_cnt := by
    rcases Nat.eq_zero_or_pos g.K_cnt with h | h
    · rw [h] at hj; simp at hj
    · exact h
  have hx : j % g.K_cnt < g.K_cnt := Nat.mod_lt _ hK
  have hy : j / g.K_cnt < g.P_cnt := by
    rw [Nat.div_lt_iff_lt_mul hK, Nat.mul_comm]
    exact hj
  have hcell := ionisation_vector_cell g mat (j % g.K_cnt) (j / g.K_cnt) hx hy
  have e : j / g.K_cnt * g.K_cnt + j % g.K_cnt = j := by
    rw [Nat.mul_comm]
    exact Nat.div_add_mod j g.K_cnt
  rw [e] at hcell
  have hget : (ionisation_vector g mat)[j]? = some (ionisation_vector g mat)[j] :=
    List.getElem?_eq_getElem _
  rw [hget] at hcell
  injection hcell with hcell
  rw [hcell]
  exact (binding_sentinel g mat _ _).1

/-- C11: for every pair of sub-models and every grid cell `(x, y)`, the value
that `create` stores at offset `y*K_cnt + x` is exactly `-1` or non-negative;
it is negative exactly when it is `-1`, which happens exactly when the primary
model gave no accepted response (energy at most 100 eV, or response below
50 eV) and the secondary response is negative; and every element of the buffer
is `-1` or non-negative. -/
theorem electron_ionisation_sentinel (g : ionisation_grid) (mat : material_legacy_thomas)
    (x y : Nat) (hx : x < g.K_cnt) (hy : y < g.P_cnt) :
    ∃ stored, (ionisation_vector g mat)[y * g.K_cnt + x]? = some stored ∧
      (stored = -1 ∨ 0 ≤ stored) ∧ (stored < 0 ↔ stored = -1) ∧
      (stored < 0 ↔
        ¬ (100 < __logspace_K_at g x ∧
          50 ≤ mat.ionization_energy ((__logspace_K_at g x + 10) * g.ec)
            (__linspace_P_at g y) / g.ec) ∧
        mat.outer_shell_ionization_energy (__logspace_K_at g x * g.ec) / g.ec < 0) ∧
      ∀ v ∈ ionisation_vector g mat, v = -1 ∨ 0 ≤ v := by
  obtain ⟨h1, h2⟩ := binding_sentinel g mat (__logspace_K_at g x) (__linspace_P_at g y)
  refine ⟨_, ionisation_vector_cell g mat x y hx hy, h1, ?_, h2, ionisation_vector_all g mat⟩
  constructor
  · intro h
    rcases h1 with h1 | h1
    · exact h1
    · linarith
  · intro h
    rw [h]
    norm_num

theorem electron_ionisation_sentinel_witness :
    ∃ stored, (ionisation_vector two_column_grid flat_material)[1 * two_column_grid.K_cnt + 0]?
        = some stored ∧ (stored = -1 ∨ 0 ≤ stored) := by
  obtain ⟨stored, hs, h1, _, _, _⟩ := electron_ionisation_sentinel two_column_grid flat_material
    0 1 (by decide) (by decide)
  exact ⟨stored, hs, h1⟩

/-! ## The two backends -/

/-- C12: for every array `A` of length `n`, the host strategy (allocate, then
`memcpy`) and the device strategy (allocate, then the element-wise copy loop),
whatever the two freshly allocated buffers hold, produce the same table, with
the count `n` and the element `A[i]` at every index `i < n`; hence `create`
returns the same table on both backends and `get` agrees at every `x`. -/
theorem table_1D_backend_interchangeable {T : Type} [Scalar T] (fill_host fill_device : T)
    (A : List T) (x_min x_max : real) (n : Nat) (hlen : A.length = n) (t0 : table_1D T) :
    (∃ t, _table_1D_factory.set_host (_table_1D_factory.allocate fill_host t0 n) A = some t ∧
        _table_1D_factory.set_device (_table_1D_factory.allocate fill_device t0 n) A = some t ∧
        t._n = n ∧ ∀ (i : Nat) (hi : i < n), t.operator_call i = some A[i]) ∧
    (∃ t, table_1D.create false fill_host A x_min x_max n = some t ∧
        table_1D.create true fill_device A x_min x_max n = some t) ∧
    ∀ x : real, (table_1D.create false fill_host A x_min x_max n).bind (fun t => t.get x)
      = (table_1D.create true fill_device A x_min x_max n).bind (fun t => t.get x) := by
  subst hlen
  refine ⟨⟨_, set_host_eq fill_host A t0, set_device_eq fill_device A t0, rfl, ?_⟩,
    ⟨_, create_eq false fill_host A x_min x_max, create_eq true fill_device A x_min x_max⟩, ?_⟩
  · intro i hi
    exact deref_some_nat A i hi
  · intro x
    rw [create_eq false fill_host A x_min x_max, create_eq true fill_device A x_min x_max]

theorem table_1D_backend_interchangeable_witness :
    ([3, 1, 4] : List real).length = 3 ∧
    ∀ x : real, (table_1D.create false 0 ([3, 1, 4] : List real) 0 2 3).bind (fun t => t.get x)
      = (table_1D.create true 7 ([3, 1, 4] : List real) 0 2 3).bind (fun t => t.get x) :=
  ⟨rfl, (table_1D_backend_interchangeable 0 7 ([3, 1, 4] : List real) 0 2 3 rfl
    (table_1D.blank real)).2.2⟩

/-! ## Preconditions of `create` -/

/-- C13, as stated, fails: `create` on one sample (`n = 1`), on no sample
(`n = 0`) and on inverted bounds (`x_max = 0 < x_min = 1`) returns a table in
each case, and reports no failure. -/
theorem table_1D_create_precondition_counterexample :
    table_1D.create false 0 ([5] : List real) 0 1 1 = some ⟨some [5], 1, 0, 0⟩ ∧
    table_1D.create false 0 ([] : List real) 0 1 0 = some ⟨some [], 0, 0, 2 ^ 64 - 1⟩ ∧
    table_1D.create false 0 ([1, 2] : List real) 1 0 2 = some ⟨some [1, 2], 2, 1, -1⟩ := by
  refine ⟨?_, ?_, ?_⟩
  · exact (create_eq false (0 : real) [5] 0 1).trans (by norm_num [size_t_sub])
  · exact (create_eq false (0 : real) [] 0 1).trans (by norm_num [size_t_sub])
  · exact (create_eq false (0 : real) [1, 2] 1 0).trans (by norm_num [size_t_sub])

/-- C13, amended: `create` checks no precondition: for every call
`create(data, x_min, x_max, n)` on an array of `n` samples, `n < 2` and
`x_max ≤ x_min` included, it returns a table with the count `n`, a copy of the
samples and the origin `x_min`. -/
theorem table_1D_create_unchecked {T : Type} (gpu_flag : Bool) (fill : T) (data : List T)
    (x_min x_max : real) (n : Nat) (hlen : data.length = n) :
    ∃ t, table_1D.create gpu_flag fill data x_min x_max n = some t ∧
      t._n = n ∧ t._data = some data ∧ t._x_min = x_min := by
  subst hlen
  exact ⟨_, create_eq gpu_flag fill data x_min x_max, rfl, rfl, rfl⟩

theorem table_1D_create_unchecked_witness :
    ([5] : List real).length = 1 ∧
    ∃ t, table_1D.create true 0 ([5] : List real) 3 3 1 = some t ∧
      t._n = 1 ∧ t._data = some [5] ∧ t._x_min = 3 :=
  ⟨rfl, table_1D_create_unchecked true 0 ([5] : List real) 3 3 1 rfl⟩

/-! ## Release of the storage -/

/-- C14: for every table state, after `free` (and hence after `destroy`) the
element count is `0` and the data pointer is null, `_x_min` and `_x_step` are
unchanged, and a second `free` leaves that state unchanged. -/
theorem table_1D_free_resets {T : Type} (table : table_1D T) :
    (_table_1D_factory.free table)._n = 0 ∧
    (_table_1D_factory.free table)._data = none ∧
    (_table_1D_factory.free table)._x_min = table._x_min ∧
    (_table_1D_factory.free table)._x_step = table._x_step ∧
    table_1D.destroy table = _table_1D_factory.free table ∧
    _table_1D_factory.free (_table_1D_factory.free table) = _table_1D_factory.free table :=
  ⟨rfl, rfl, rfl, rfl, rfl, rfl⟩

/-! ## Sampling -/

/-- C15: for every kinetic energy `K` and every generator state, `sample(K, rng)`
returns the rounded-down lookup `get_rounddown(logr K, u)` of its table, where
`u` is the one draw `rng.unit()`; the generator is left in the state that
follows this draw and the instance, with its table, is unchanged.  On a
generator that reads a fixed sequence of draws, the position advances by
exactly one. -/
theorem electron_ionisation_sample_contract {Tab G : Type} (env : sample_env Tab G)
    (self : electron_ionisation Tab) (K : real) (rng : G) :
    (electron_ionisation.sample env self K rng).1
        = env.get_rounddown self._ionisation_table (env.logr K) (env.unit rng).1 ∧
      (electron_ionisation.sample env self K rng).2.1 = self ∧
      (electron_ionisation.sample env self K rng).2.2 = (env.unit rng).2 ∧
      ∀ (logr : real → real) (lookup : Tab → real → real → real) (draws : Nat → real)
        (position : Nat),
        electron_ionisation.sample ⟨logr, sequence_generator draws, lookup⟩ self K position
          = (lookup self._ionisation_table (logr K) (draws position), self, position + 1) :=
  ⟨rfl, rfl, rfl, fun _ _ _ _ => rfl⟩

/-! ## The grid of the factory -/

/-- C16: for `0 < K_min` (so for `0 < K_min < K_max`), `K_cnt ≥ 2`, `P_cnt ≥ 2`,
and `exp`, `log` that obey the laws of the exponential and the logarithm at the arguments the grid
uses, `K_at(0) = K_min`, `K_at(K_cnt-1) = K_max`,
`log K_at(x) = log K_min + x*(log K_max - log K_min)/(K_cnt-1)` for every
`x < K_cnt`, `P_at(y) = y/(P_cnt-1)` with `P_at(0) = 0` and `P_at(P_cnt-1) = 1`;
these are the grid points of the axes `(log K_min, log K_max, K_cnt)` and
`(0, 1, P_cnt)` passed to the table, and the cell `(x, y)` is written at the
flat offset `y*K_cnt + x`. -/
theorem electron_ionisation_grid_matches_axes (g : ionisation_grid)
    (hK : 0 < g.K_min) (hc : 2 ≤ g.K_cnt) (hp : 2 ≤ g.P_cnt)
    (hexp0 : g.exp 0 = 1)
    (hexplog : g.exp (g.log (g.K_max / g.K_min)) = g.K_max / g.K_min)
    (hlogdiv : g.log (g.K_max / g.K_min) = g.log g.K_max - g.log g.K_min)
    (hlogmul : ∀ x : Nat, x < g.K_cnt →
      g.log (g.K_min * g.exp (x / ((g.K_cnt : real) - 1) * g.log (g.K_max / g.K_min)))
        = g.log g.K_min + x / ((g.K_cnt : real) - 1) * g.log (g.K_max / g.K_min)) :
    __logspace_K_at g 0 = g.K_min ∧ __logspace_K_at g (g.K_cnt - 1) = g.K_max ∧
    (∀ x : Nat, x < g.K_cnt → g.log (__logspace_K_at g x)
      = g.log g.K_min + x * (g.log g.K_max - g.log g.K_min) / ((g.K_cnt : real) - 1)) ∧
    (∀ x : Nat, x < g.K_cnt → g.log (__logspace_K_at g x)
      = grid_point (table_axes g).1.1 (table_axes g).1.2.1 (table_axes g).1.2.2 x) ∧
    (∀ y : Nat, __linspace_P_at g y = y / ((g.P_cnt : real) - 1)) ∧
    __linspace_P_at g 0 = 0 ∧ __linspace_P_at g (g.P_cnt - 1) = 1 ∧
    (∀ y : Nat, __linspace_P_at g y
      = grid_point (table_axes g).2.1 (table_axes g).2.2.1 (table_axes g).2.2.2 y) ∧
    (∀ (mat : material_legacy_thomas) (x y : Nat), x < g.K_cnt → y < g.P_cnt →
      (ionisation_vector g mat)[y * g.K_cnt + x]?
        = some (binding g mat (__logspace_K_at g x) (__linspace_P_at g y))) := by
  have hc1 : (2 : real) ≤ (g.K_cnt : real) := by exact_mod_cast hc
  have hp1 : (2 : real) ≤ (g.P_cnt : real) := by exact_mod_cast hp
  have hcne : (g.K_cnt : real) - 1 ≠ 0 := by linarith
  have hpne : (g.P_cnt : real) - 1 ≠ 0 := by linarith
  have hKne : g.K_min ≠ 0 := ne_of_gt hK
  have hcc : ((g.K_cnt - 1 : Nat) : real) = (g.K_cnt : real) - 1 := by
    rw [Nat.cast_sub (by omega)]
    norm_num
  have hpc : ((g.P_cnt - 1 : Nat) : real) = (g.P_cnt : real) - 1 := by
    rw [Nat.cast_sub (by omega)]
    norm_num
  have hlog : ∀ x : Nat, x < g.K_cnt → g.log (__logspace_K_at g x)
      = g.log g.K_min + x * (g.log g.K_max - g.log g.K_min) / ((g.K_cnt : real) - 1) := by
    intro x hx
    unfold __logspace_K_at
    rw [one_mul, hlogmul x hx, hlogdiv]
    ring
  refine ⟨?_, ?_, hlog, ?_, ?_, ?_, ?_, ?_, ?_⟩
  · unfold __logspace_K_at
    simp [hexp0]
  · unfold __logspace_K_at
    rw [hcc, one_mul, div_self hcne, one_mul, hexplog]
    field_simp
  · intro x hx
    rw [hlog x hx]
    simp [table_axes, grid_point]
  · intro y
    unfold __linspace_P_at
    rw [one_mul]
  · unfold __linspace_P_at
    simp
  · unfold __linspace_P_at
    rw [hpc, one_mul, div_self hpne]
  · intro y
    unfold __linspace_P_at
    simp [table_axes, grid_point]
  · intro mat x y hx hy
    exact ionisation_vector_cell g mat x y hx hy

theorem electron_ionisation_grid_matches_axes_witness :
    __logspace_K_at three_column_grid 0 = 1 ∧ __logspace_K_at three_column_grid 2 = 16 ∧
    three_column_grid.log (__logspace_K_at three_column_grid 1)
      = three_column_grid.log 1
        + (1 : Nat) * (three_column_grid.log 16 - three_column_grid.log 1)
          / (((3 : Nat) : real) - 1) ∧
    __linspace_P_at three_column_grid 2 = 1 := by
  have h := electron_ionisation_grid_matches_axes three_column_grid
    (by norm_num [three_column_grid]) (by decide) (by decide)
    (by norm_num [three_column_grid]) (by norm_num [three_column_grid])
    (by norm_num [three_column_grid])
    (by
      intro x hx
      have hx3 : x < 3 := hx
      interval_cases x <;> norm_num [three_column_grid])
  exact ⟨h.1, h.2.1, h.2.2.1 1 (by decide), h.2.2.2.2.2.2.1⟩

/-! ## Out-of-domain queries, as coded -/

/-- C17: for `n ≥ 2`, `x_min < x_max` and the inverse step `s = (n-1)/(x_max - x_min)`,
the table returned by `create` satisfies
`get(x) = data[0] + (x - x_min)*s*(data[1] - data[0])` for every `x < x_min` and
`get(x) = data[n-1] + (x - x_max)*s*(data[n-1] - data[n-2])` for every `x > x_max`. -/
theorem table_1D_out_of_domain (gpu_flag : Bool) (fill : real) (data : List real)
    (x_min x_max : real) (n : Nat) (hlen : data.length = n) (hn : 2 ≤ n)
    (hx : x_min < x_max) :
    ∃ t, table_1D.create gpu_flag fill data x_min x_max n = some t ∧
      t._x_step = ((n : real) - 1) / (x_max - x_min) ∧
      (∀ x, x < x_min → t.get x = some (data[0]
        + (x - x_min) * (((n : real) - 1) / (x_max - x_min)) * (data[1] - data[0]))) ∧
      (∀ x, x_max < x → t.get x = some (data[n - 1]
        + (x - x_max) * (((n : real) - 1) / (x_max - x_min)) * (data[n - 1] - data[n - 2]))) := by
  subst hlen
  refine ⟨_, create_fields gpu_flag fill data x_min x_max _ rfl (by omega), rfl, ?_, ?_⟩
  · intro x hlt
    rw [(get_below ⟨some data, data.length, x_min,
      ((data.length : real) - 1) / (x_max - x_min)⟩ data x_max rfl rfl hn hx rfl x hlt).2]
    simp only [table_1D.x_index]
    congr 1
    ring
  · intro x hgt
    obtain ⟨m, hm⟩ : ∃ m, data.length = m + 2 := ⟨data.length - 2, by omega⟩
    have hmax := x_index_x_max (⟨some data, data.length, x_min,
      ((data.length : real) - 1) / (x_max - x_min)⟩ : table_1D real) x_max hx rfl
    have hcast : ((data.length - 2 : Nat) : real) = (data.length : real) - 2 := by
      rw [Nat.cast_sub hn]
      norm_num
    rw [(get_above ⟨some data, data.length, x_min,
      ((data.length : real) - 1) / (x_max - x_min)⟩ data x_max rfl rfl hn hx rfl x hgt).2]
    simp only [table_1D.x_index] at hmax ⊢
    rw [hcast]
    congr 1
    linear_combination (data[data.length - 1] - data[data.length - 2]) * hmax

theorem table_1D_out_of_domain_witness :
    ∃ t, table_1D.create false 0 ([0, 10, 20] : List real) 0 2 3 = some t ∧
      t.get (-5) = some (-50) ∧ t.get 100 = some 1000 := by
  obtain ⟨t, ht, _, hb, ha⟩ := table_1D_out_of_domain false 0 [0, 10, 20] 0 2 3 rfl
    (by decide) (by norm_num)
  refine ⟨t, ht, ?_, ?_⟩
  · rw [hb (-5) (by norm_num)]
    norm_num
  · rw [ha 100 (by norm_num)]
    norm_num

/-! ## The energy gate -/

theorem binding_below_gate (g : ionisation_grid) (mat : material_legacy_thomas)
    (omega0 P : real) (h : omega0 ≤ 100) :
    binding g mat omega0 P
      = if mat.outer_shell_ionization_energy (omega0 * g.ec) / g.ec < 0 then -1
        else mat.outer_shell_ionization_energy (omega0 * g.ec) / g.ec := by
  have hg : ¬ 100 < omega0 := not_lt.mpr h
  simp [binding, hg]

/-- C18: for every grid cell `(x, y)` whose energy `omega0 = K_at(x)` is at most
100 eV, the stored value is `outer_shell_ionization_energy(omega0*ec)/ec` when
that is non-negative and `-1` otherwise; it is the same in every row `y` and for
every material with the same `outer_shell_ionization_energy`, whatever its
`ionization_energy`. -/
theorem electron_ionisation_energy_gate (g : ionisation_grid) (mat : material_legacy_thomas)
    (x y : Nat) (hx : x < g.K_cnt) (hy : y < g.P_cnt) (hgate : __logspace_K_at g x ≤ 100) :
    ∃ stored, (ionisation_vector g mat)[y * g.K_cnt + x]? = some stored ∧
      (0 ≤ mat.outer_shell_ionization_energy (__logspace_K_at g x * g.ec) / g.ec →
        stored = mat.outer_shell_ionization_energy (__logspace_K_at g x * g.ec) / g.ec) ∧
      (mat.outer_shell_ionization_energy (__logspace_K_at g x * g.ec) / g.ec < 0 →
        stored = -1) ∧
      (∀ y2, y2 < g.P_cnt → (ionisation_vector g mat)[y2 * g.K_cnt + x]? = some stored) ∧
      (∀ mat2 : material_legacy_thomas,
        mat2.outer_shell_ionization_energy = mat.outer_shell_ionization_energy →
        (ionisation_vector g mat2)[y * g.K_cnt + x]? = some stored) := by
  refine ⟨_, ionisation_vector_cell g mat x y hx hy, ?_, ?_, ?_, ?_⟩
  · intro h
    rw [binding_below_gate g mat _ _ hgate, if_neg (not_lt.mpr h)]
  · intro h
    rw [binding_below_gate g mat _ _ hgate, if_pos h]
  · intro y2 hy2
    rw [ionisation_vector_cell g mat x y2 hx hy2, binding_below_gate g mat _ _ hgate,
      binding_below_gate g mat _ _ hgate]
  · intro mat2 h2
    rw [ionisation_vector_cell g mat2 x y hx hy, binding_below_gate g mat2 _ _ hgate,
      binding_below_gate g mat _ _ hgate, h2]

theorem electron_ionisation_energy_gate_witness :
    ∃ stored, (ionisation_vector two_column_grid flat_material)[1 * two_column_grid.K_cnt + 0]?
      = some stored ∧ stored = 5 := by
  have hK : __logspace_K_at two_column_grid 0 = 50 := by
    norm_num [__logspace_K_at, two_column_grid]
  obtain ⟨stored, hs, h1, _, _, _⟩ := electron_ionisation_energy_gate two_column_grid
    flat_material 0 1 (by decide) (by decide) (by rw [hK]; norm_num)
  refine ⟨stored, hs, ?_⟩
  rw [h1 (by norm_num [flat_material, two_column_grid]), hK]
  norm_num [flat_material, two_column_grid]

/-! ## The original formula -/

/-- C19: for all finite `low_value`, `high_value` and every offset `f`,
`(1 - f)*low_value + f*high_value = low_value + f*(high_value - low_value)`;
hence on every table of finite samples and at every `x`, `get(x)` is the result
of the original implementation kept in the comment. -/
theorem table_1D_get_eq_original (t : table_1D real) (x : real) :
    (∀ low_value high_value f : real,
      (1 - f) * low_value + f * high_value = low_value + f * (high_value - low_value)) ∧
    t.get x = t.get_original x := by
  refine ⟨fun low_value high_value f => by ring, ?_⟩
  unfold table_1D.get table_1D.get_original
  cases h1 : deref t._data (clampi (floorr ((x - t._x_min) * t._x_step)) 0 ((t._n : Int) - 2))
    with
  | none => simp [h1]
  | some low_value =>
    cases h2 : deref t._data
        (clampi (floorr ((x - t._x_min) * t._x_step)) 0 ((t._n : Int) - 2) + 1) with
    | none => simp [h1, h2]
    | some high_value =>
      simp only [h1, h2]
      show some ((1 - ((x - t._x_min) * t._x_step
          - ((clampi (floorr ((x - t._x_min) * t._x_step)) 0 ((t._n : Int) - 2) : Int) : real)))
          * low_value
          + ((x - t._x_min) * t._x_step
          - ((clampi (floorr ((x - t._x_min) * t._x_step)) 0 ((t._n : Int) - 2) : Int) : real))
          * high_value) = _
      congr 1
      ring

/-! ## Monotone tables -/

theorem low_index_mono {T : Type} (t : table_1D T) (x y : real)
    (h : t.x_index x ≤ t.x_index y) : t.low_index x ≤ t.low_index y := by
  have hf : floorr ((x - t._x_min) * t._x_step) ≤ floorr ((y - t._x_min) * t._x_step) :=
    Int.floor_mono h
  unfold table_1D.low_index clampi
  exact min_le_min (max_le_max hf le_rfl) le_rfl

/-- When the clamped index is below the last cell, the continuous index is
below the right end of the cell. -/
theorem x_index_lt_of_low_index {T : Type} (t : table_1D T) (x : real) (k : Nat)
    (hlow : t.low_index x = (k : Int)) (hk : (k : Int) < (t._n : Int) - 2) :
    t.x_index x < (k : real) + 1 := by
  have hf : floorr ((x - t._x_min) * t._x_step) < (k : Int) + 1 := by
    unfold table_1D.low_index clampi at hlow
    rcases le_total (max (floorr ((x - t._x_min) * t._x_step)) 0) ((t._n : Int) - 2) with h | h
    · rw [min_eq_left h] at hlow
      have := le_max_left (floorr ((x - t._x_min) * t._x_step)) 0
      omega
    · rw [min_eq_right h] at hlow
      omega
  unfold floorr at hf
  rw [Int.floor_lt] at hf
  simpa [table_1D.x_index] using hf

/-- When the clamped index is above the first cell, the continuous index is at
or above the left end of the cell. -/
theorem le_x_index_of_low_index {T : Type} (t : table_1D T) (x : real) (k : Nat)
    (hlow : t.low_index x = (k : Int)) (hk : 0 < k) :
    (k : real) ≤ t.x_index x := by
  have hf : (k : Int) ≤ floorr ((x - t._x_min) * t._x_step) := by
    unfold table_1D.low_index clampi at hlow
    have h1 : (k : Int) ≤ max (floorr ((x - t._x_min) * t._x_step)) 0 := by
      rw [← hlow]
      exact min_le_left _ _
    rcases le_total (floorr ((x - t._x_min) * t._x_step)) 0 with h | h
    · rw [max_eq_right h] at h1
      omega
    · rw [max_eq_left h] at h1
      exact h1
  unfold floorr at hf
  rw [Int.le_floor] at hf
  simpa [table_1D.x_index] using hf

theorem samples_mono (data : List real)
    (hmono : ∀ (i : Nat) (hi : i + 1 < data.length), data[i] ≤ data[i + 1]) :
    ∀ (d i : Nat) (hj : i + d < data.length), data[i] ≤ data[i + d] := by
  intro d
  induction d with
  | zero => intro i hj; exact le_refl _
  | succ d ih =>
    intro i hj
    exact le_trans (ih i (by omega)) (hmono (i + d) hj)

/-- On non-decreasing samples `get` is non-decreasing. -/
theorem get_mono (t : table_1D real) (data : List real) (x_max : real)
    (hd : t._data = some data) (hlen : data.length = t._n) (hn : 2 ≤ t._n)
    (hx : t._x_min < x_max) (hs : t._x_step = ((t._n : real) - 1) / (x_max - t._x_min))
    (hmono : ∀ (i : Nat) (hi : i + 1 < data.length), data[i] ≤ data[i + 1])
    (x y : real) (hxy : x ≤ y) :
    ∃ vx vy, t.get x = some vx ∧ t.get y = some vy ∧ vx ≤ vy := by
  have hpos := x_step_pos t x_max hn hx hs
  have hxi : t.x_index x ≤ t.x_index y := by
    unfold table_1D.x_index
    exact mul_le_mul_of_nonneg_right (by linarith) hpos.le
  obtain ⟨kx, hkx, hlx⟩ := low_index_nat t x hn
  obtain ⟨ky, hky, hly⟩ := low_index_nat t y hn
  have hkk : kx ≤ ky := by
    have := low_index_mono t x y hxi
    rw [hlx, hly] at this
    exact_mod_cast this
  have hkx1 : kx + 1 < data.length := by omega
  have hky1 : ky + 1 < data.length := by omega
  refine ⟨_, _, get_real_of_low_index t data x kx hd hkx1 hlx,
    get_real_of_low_index t data y ky hd hky1 hly, ?_⟩
  rcases Nat.eq_or_lt_of_le hkk with he | hlt
  · subst he
    have hstep := hmono kx hkx1
    nlinarith
  · have h1 : t.x_index x < (kx : real) + 1 :=
      x_index_lt_of_low_index t x kx hlx (by omega)
    have h2 : (ky : real) ≤ t.x_index y :=
      le_x_index_of_low_index t y ky hly (by omega)
    have hsx := hmono kx hkx1
    have hsy := hmono ky hky1
    obtain ⟨d, hd2⟩ : ∃ d, ky = kx + 1 + d := ⟨ky - (kx + 1), by omega⟩
    subst hd2
    have hmid := samples_mono data hmono d (kx + 1) (by omega)
    have hleft : (1 - (t.x_index x - kx)) * data[kx] + (t.x_index x - kx) * data[kx + 1]
        ≤ data[kx + 1] := by nlinarith
    have hright : data[kx + 1 + d]
        ≤ (1 - (t.x_index y - ((kx + 1 + d : Nat) : real))) * data[kx + 1 + d]
          + (t.x_index y - ((kx + 1 + d : Nat) : real)) * data[kx + 1 + d + 1] := by nlinarith
    linarith

/-- C20: for `n ≥ 2`, `x_min < x_max` and samples that are non-decreasing in the
index, the table returned by `create` has a `get` that is non-decreasing over
all `x`: for every `x ≤ y`, `get(x) ≤ get(y)`, across cell boundaries and
outside `[x_min, x_max]` included. -/
theorem table_1D_get_monotone (gpu_flag : Bool) (fill : real) (data : List real)
    (x_min x_max : real) (n : Nat) (hlen : data.length = n) (hn : 2 ≤ n)
    (hx : x_min < x_max)
    (hmono : ∀ (i : Nat) (hi : i + 1 < data.length), data[i] ≤ data[i + 1]) :
    ∃ t, table_1D.create gpu_flag fill data x_min x_max n = some t ∧
      ∀ x y : real, x ≤ y → ∃ vx vy, t.get x = some vx ∧ t.get y = some vy ∧ vx ≤ vy := by
  subst hlen
  exact ⟨_, create_fields gpu_flag fill data x_min x_max _ rfl (by omega),
    fun x y hxy => get_mono _ data x_max rfl rfl hn hx rfl hmono x y hxy⟩

theorem table_1D_get_monotone_witness :
    ∃ t, table_1D.create false 0 ([0, 10, 20] : List real) 0 2 3 = some t ∧
      ∀ x y : real, x ≤ y → ∃ vx vy, t.get x = some vx ∧ t.get y = some vy ∧ vx ≤ vy :=
  table_1D_get_monotone false 0 [0, 10, 20] 0 2 3 rfl (by decide) (by norm_num)
    (by
      intro i hi
      have hi3 : i + 1 < 3 := hi
      have hcases : i = 0 ∨ i = 1 := by omega
      rcases hcases with h | h <;> subst h <;> norm_num)

end nbl
